import Mathlib

/-!
Verification of the f1.ai video-pipeline orchestration code.

The Python sources are shallowly embedded: Python `str` values are modelled as
`String` / `List Char`, Python string operations (`split`, `strip`, `lower`,
`replace`, substring tests) as executable structural functions on `List Char`,
floating-point durations as `ℚ` (continuous time, no frame quantisation), and
each stage's external-tool interactions (`ffmpeg`, `ffprobe`, `yt-dlp`,
HTTP APIs) as an explicit trace of call events, with oracles for the
observable outcomes of those calls (file existence, probed durations,
search results).  ASCII text is modelled exactly; the embedding of
`str.lower`, `str.split()` and `\w`/whitespace character classes uses the
ASCII definitions, which agree with Python on all ASCII inputs.
-/

namespace F1

/-! ## Character-level primitives for Python string operations -/

/-- Python `str.lower` restricted to ASCII: map A-Z to a-z. -/
def lowerChar (c : Char) : Char :=
  if c.isUpper then Char.ofNat (c.toNat + 32) else c

/-- Python `str.lower` on a whole string (as a character list). -/
def lowerStr (s : List Char) : List Char :=
  s.map lowerChar

/-- `startsWithList pat s`: the character list `s` begins with `pat`. -/
def startsWithList : List Char → List Char → Bool
  | [], _ => true
  | _ :: _, [] => false
  | p :: ps, c :: cs => p == c && startsWithList ps cs

/-- Python `pat in s` (substring containment test). -/
def occursIn (pat : List Char) (s : List Char) : Bool :=
  s.tails.any (startsWithList pat)

/-- Python `s.split(sep)` for a one-character separator: split at every
occurrence, keeping empty chunks (`"a__b".split("_") == ["a","","b"]`). -/
def splitOnChar (sep : Char) : List Char → List (List Char)
  | [] => [[]]
  | c :: rest =>
    match splitOnChar sep rest with
    | [] => [[]]
    | h :: t => if c == sep then [] :: h :: t else (c :: h) :: t

/-- Python `re.split` on a single-character class: split at every character
satisfying `p`, keeping empty chunks. -/
def splitOnPred (p : Char → Bool) : List Char → List (List Char)
  | [] => [[]]
  | c :: rest =>
    match splitOnPred p rest with
    | [] => [[]]
    | h :: t => if p c then [] :: h :: t else (c :: h) :: t

/-- Worker for `pySplitWs`: `cur` is the word currently being read. -/
def splitWsAcc (cur : List Char) : List Char → List (List Char)
  | [] => if cur.isEmpty then [] else [cur]
  | c :: r =>
    if c.isWhitespace then
      if cur.isEmpty then splitWsAcc [] r else cur :: splitWsAcc [] r
    else
      splitWsAcc (cur ++ [c]) r

/-- Python `str.split()` with no argument: split on whitespace runs and drop
empty chunks. -/
def pySplitWs (l : List Char) : List (List Char) :=
  splitWsAcc [] l

/-- Python `" ".join(words)` on character lists. -/
def joinWords : List (List Char) → List Char
  | [] => []
  | [w] => w
  | w :: ws => w ++ ' ' :: joinWords ws

/-- Python `str.strip()`: remove leading and trailing whitespace. -/
def stripChars (l : List Char) : List Char :=
  ((l.dropWhile Char.isWhitespace).reverse.dropWhile Char.isWhitespace).reverse

/-- Fuel-driven worker for `renderNat` (structural recursion so that the
kernel can evaluate it; `fuel ≥ n` suffices). -/
def renderNatAux : Nat → Nat → List Char
  | 0, _ => []
  | _ + 1, 0 => []
  | fuel + 1, n + 1 => renderNatAux fuel ((n + 1) / 10) ++ [Nat.digitChar ((n + 1) % 10)]

/-- Decimal rendering of a natural number, as Python `str(n)` /
`"%d" % n` produce it. -/
def renderNat (n : Nat) : List Char :=
  if n = 0 then ['0'] else renderNatAux n n

/-- Python `f"{n:02d}"`: zero-pad to width two. -/
def pad2 (n : Nat) : List Char :=
  if n < 10 then '0' :: renderNat n else renderNat n

/-- Python `int(s)` on a string of decimal digits (total model: non-digit
characters contribute their code point minus 48). -/
def parseNat (l : List Char) : Nat :=
  l.foldl (fun a c => a * 10 + (c.toNat - 48)) 0

/-- Fuel-driven worker for `pyReplace` (structural recursion so that the
kernel can evaluate it; the fuel is the length of the scanned list). -/
def replaceFuel (pat repl : List Char) : Nat → List Char → List Char
  | 0, l => l
  | _ + 1, [] => []
  | fuel + 1, c :: rest =>
    if pat ≠ [] && startsWithList pat (c :: rest) then
      repl ++ replaceFuel pat repl fuel (rest.drop (pat.length - 1))
    else
      c :: replaceFuel pat repl fuel rest

/-- Python `s.replace(pat, repl)` for a non-empty pattern: replace all
non-overlapping occurrences, scanning left to right. -/
def pyReplace (pat repl l : List Char) : List Char :=
  replaceFuel pat repl l.length l

/-- Python `abs()` on a rational. -/
def pyAbs (q : ℚ) : ℚ :=
  if q < 0 then -q else q

/-- Python `int()` on a non-negative rational (truncation; all durations in
the pipeline are non-negative). -/
def pyInt (q : ℚ) : ℤ :=
  if q < 0 then Int.ceil q else Int.floor q

/-! ## config.py -/

/-- `config.F1_TEAM_COLORS`, in dict insertion order (Python dicts iterate in
insertion order, which is what `get_team_color` relies on). -/
def F1_TEAM_COLORS : List (String × String) :=
  [("red bull", "#3671C6"),
   ("redbull", "#3671C6"),
   ("mclaren", "#FF8000"),
   ("ferrari", "#E8002D"),
   ("mercedes", "#27F4D2"),
   ("aston martin", "#229971"),
   ("alpine", "#FF87BC"),
   ("williams", "#64C4FF"),
   ("haas", "#B6BABD"),
   ("kick sauber", "#52E252"),
   ("sauber", "#52E252"),
   ("vettel", "#3671C6"),
   ("webber", "#3671C6"),
   ("norris", "#FF8000"),
   ("piastri", "#FF8000"),
   ("verstappen", "#3671C6"),
   ("hamilton", "#27F4D2"),
   ("leclerc", "#E8002D"),
   ("sainz", "#E8002D"),
   ("alonso", "#229971"),
   ("russell", "#27F4D2"),
   ("perez", "#3671C6")]

/-- `config.F1_DEFAULT_COLOR`. -/
def F1_DEFAULT_COLOR : String := "#FFFFFF"

/-- `config.OUTPUT_WIDTH` (short-form, 9:16 vertical). -/
def OUTPUT_WIDTH : Nat := 1080

/-- `config.OUTPUT_HEIGHT` (short-form, 9:16 vertical). -/
def OUTPUT_HEIGHT : Nat := 1920

/-! ## wrap_text (video_assembler.py lines 60-80, video_assembler_longform.py
lines 94-114; the two copies are textually identical apart from the default
for max_chars) -/

/-- Loop state of `wrap_text`: emitted lines (as word groups), the current
line's words, and the `current_length` counter. -/
structure WrapState where
  lines : List (List (List Char))
  current : List (List Char)
  curLen : Nat

/-- One iteration of the `for word in words` loop of `wrap_text`. -/
def wrapStep (maxChars : Nat) (st : WrapState) (w : List Char) : WrapState :=
  if st.curLen + w.length + 1 ≤ maxChars then
    { st with current := st.current ++ [w], curLen := st.curLen + w.length + 1 }
  else
    { lines := if st.current = [] then st.lines else st.lines ++ [st.current],
      current := [w],
      curLen := w.length }

/-- `wrap_text`, kept at the level of word groups: the Python code appends
`" ".join(current_line)`; here a line is its list of words. -/
def wrapGroups (ws : List (List Char)) (maxChars : Nat) : List (List (List Char)) :=
  let st := ws.foldl (wrapStep maxChars) ⟨[], [], 0⟩
  if st.current = [] then st.lines else st.lines ++ [st.current]

/-- `wrap_text(text, max_chars)`: split into words, group greedily, join each
group with single spaces. -/
def wrap_text (text : String) (maxChars : Nat) : List String :=
  (wrapGroups (pySplitWs text.data) maxChars).map (fun g => String.mk (joinWords g))

/-! ## get_team_color (video_assembler.py lines 82-91,
video_assembler_longform.py lines 117-123) -/

/-- `get_team_color(text)`: first keyword of `F1_TEAM_COLORS` (in table
order) occurring in the lower-cased text wins; default otherwise. -/
def get_team_color (text : String) : String :=
  match F1_TEAM_COLORS.find? (fun kc => occursIn kc.1.data (lowerStr text.data)) with
  | some kc => kc.2
  | none => F1_DEFAULT_COLOR

/-! ## fact_checker.py: extract_claims (lines 92-125)

`extract_claims` splits the text into sentences at `.` `!` `?`, strips each
sentence, and appends the sentence (once, via `break`) when any of six
`re.search(..., re.IGNORECASE)` patterns fires.  Each regex is embedded as an
executable match-at-position predicate; `re.search` is existential over start
positions (`List.tails.any`).  Case-insensitivity is modelled by lower-casing
the sentence before matching (the patterns' literals are lower-case, and
`\d`/`\w` are case-neutral).  `.` does not match a newline. -/

/-- Python regex `\w` (ASCII fragment): letters, digits, underscore. -/
def wordChar (c : Char) : Bool :=
  c.isAlphanum || c == '_'

/-- Does `l` begin with any of the patterns? -/
def startsAnyOf (pats : List (List Char)) (l : List Char) : Bool :=
  pats.any (fun p => startsWithList p l)

/-- Match any of the alternatives at the head of `l` and continue with `k` on
the remainder (regex alternation followed by further pattern). -/
def afterAnyOf (pats : List (List Char)) (k : List Char → Bool) (l : List Char) : Bool :=
  pats.any (fun p => startsWithList p l && k (l.drop p.length))

/-- Regex `.*(t1|t2)`: one of the targets occurs after a (possibly empty)
newline-free gap. -/
def dotStarThen (targets : List (List Char)) : List Char → Bool
  | [] => startsAnyOf targets []
  | c :: rest => startsAnyOf targets (c :: rest) || (c != '\n' && dotStarThen targets rest)

/-- Pattern 1, `in (\d{4})`, matched at the head of the list. -/
def yearPatAt : List Char → Bool
  | 'i' :: 'n' :: ' ' :: a :: b :: c :: d :: _ =>
    a.isDigit && b.isDigit && c.isDigit && d.isDigit
  | _ => false

/-- Pattern 2, `(\w+) (won|became|clinched|secured) .*(championship|title)`,
matched at the head of the list.  `\w+` before a literal space is forced to
the maximal word-character run. -/
def champPatAt (l : List Char) : Bool :=
  match l with
  | [] => false
  | c :: _ =>
    wordChar c &&
    (match l.dropWhile wordChar with
     | ' ' :: r =>
       afterAnyOf ["won".data, "became".data, "clinched".data, "secured".data]
         (fun r2 =>
           match r2 with
           | ' ' :: r3 => dotStarThen ["championship".data, "title".data] r3
           | _ => false) r
     | _ => false)

/-- Pattern 3, `(first|youngest|oldest|most|fastest|slowest)`, at the head. -/
def recordPatAt (l : List Char) : Bool :=
  startsAnyOf
    ["first".data, "youngest".data, "oldest".data, "most".data,
     "fastest".data, "slowest".data] l

/-- Pattern 4, `(\d+) (wins?|poles?|podiums?|championships?|points?)`, at the
head.  The optional plural `s?` ends the pattern, so matching the stem
suffices. -/
def statPatAt : List Char → Bool
  | [] => false
  | c :: rest =>
    c.isDigit &&
    (match (c :: rest).dropWhile Char.isDigit with
     | ' ' :: r =>
       startsAnyOf
         ["win".data, "pole".data, "podium".data, "championship".data,
          "point".data] r
     | _ => false)

/-- Pattern 5, `(\w+) (joined|drove for|raced for|moved to) (\w+)`, at the
head. -/
def teamPatAt (l : List Char) : Bool :=
  match l with
  | [] => false
  | c :: _ =>
    wordChar c &&
    (match l.dropWhile wordChar with
     | ' ' :: r =>
       afterAnyOf ["joined".data, "drove for".data, "raced for".data, "moved to".data]
         (fun r2 =>
           match r2 with
           | ' ' :: c2 :: _ => wordChar c2
           | _ => false) r
     | _ => false)

/-- Pattern 6, `(won|finished|crashed|retired) (at|in|during) (\w+)`, at the
head. -/
def racePatAt (l : List Char) : Bool :=
  afterAnyOf ["won".data, "finished".data, "crashed".data, "retired".data]
    (fun r =>
      match r with
      | ' ' :: r2 =>
        afterAnyOf ["at".data, "in".data, "during".data]
          (fun r3 =>
            match r3 with
            | ' ' :: c :: _ => wordChar c
            | _ => false) r2
      | _ => false) l

/-- `re.search(pat, s)`: the pattern matches at some start position. -/
def searchPat (patAt : List Char → Bool) (l : List Char) : Bool :=
  l.tails.any patAt

/-- The `for pattern in patterns` loop body of `extract_claims`: does any of
the six patterns fire on the (stripped) sentence? -/
def claimPats (s : List Char) : Bool :=
  let low := lowerStr s
  searchPat yearPatAt low || searchPat champPatAt low || searchPat recordPatAt low ||
  searchPat statPatAt low || searchPat teamPatAt low || searchPat racePatAt low

/-- The `[.!?]` sentence-separator class of `extract_claims`. -/
def sentenceSepChar (c : Char) : Bool :=
  c == '.' || c == '!' || c == '?'

/-- `extract_claims(text)` (fact_checker.py lines 92-125). -/
def extract_claims (text : String) : List String :=
  (splitOnPred sentenceSepChar text.data).filterMap (fun s =>
    let st := stripChars s
    if st.isEmpty then none
    else if claimPats st then some (String.mk st) else none)

/-! ## fact_checker.py: per-segment overall verdict (lines 302-311) and
strict-mode exit code (lines 533-539) -/

/-- Verdict of a single checked claim. -/
inductive Verdict
  | verified
  | unverified
  | disputed
  | error
deriving DecidableEq

/-- Per-segment overall verdict. -/
inductive Overall
  | verified
  | disputed
  | partiallyVerified
  | unverified
  | noClaims
deriving DecidableEq

/-- Boolean test used below for `v == "verified"`. -/
def isVerified : Verdict → Bool
  | .verified => true
  | _ => false

/-- Boolean test used below for `v == "disputed"`. -/
def isDisputed : Verdict → Bool
  | .disputed => true
  | _ => false

/-- `check_segment`'s overall-verdict computation: `no_claims` when no claims
were extracted, otherwise all-verified / any-disputed / any-verified /
unverified in that order (fact_checker.py lines 286-311). -/
def check_segment_overall (claimVerdicts : List Verdict) : Overall :=
  if claimVerdicts.isEmpty then .noClaims
  else if claimVerdicts.all isVerified then .verified
  else if claimVerdicts.any isDisputed then .disputed
  else if claimVerdicts.any isVerified then .partiallyVerified
  else .unverified

/-- `main`'s strict-mode tail (fact_checker.py lines 533-539): with
`--strict`, exit 2 when the `disputed` counter is positive, else exit 1 when
the `unverified` counter is positive; `none` means the process does not exit
early (exit status 0). -/
def strictExitCode (strict : Bool) (overalls : List Overall) : Option Nat :=
  if strict then
    if 0 < overalls.count Overall.disputed then some 2
    else if 0 < overalls.count Overall.unverified then some 1
    else none
  else none

/-! ## verify_output (video_assembler.py lines 213-231,
video_assembler_longform.py lines 561-600) -/

/-- Short-form `verify_output`: passes iff the probed video and audio stream
durations differ by at most 1.0 s. -/
def verify_output_short (videoDur audioDur : ℚ) : Bool :=
  if pyAbs (videoDur - audioDur) > 1 then false else true

/-- Long-form `verify_output`: fails when the probed durations differ by more
than 2.0 s, otherwise fails when both probed dimensions are positive and the
width/height quotient deviates from 16:9 by more than 0.1, otherwise passes. -/
def verify_output_long (videoDur audioDur : ℚ) (width height : Nat) : Bool :=
  if pyAbs (videoDur - audioDur) > 2 then false
  else if 0 < width ∧ 0 < height then
    if pyAbs (((width : ℚ) / (height : ℚ)) - 16 / 9) > 1 / 10 then false else true
  else true

/-- Final report of either assembler's `main` after the verification step. -/
inductive FinalReport
  | success (path : String)
  | warning (path : String)
  | failed
deriving DecidableEq

/-- Tail of both assemblers' `main` (video_assembler.py lines 328-342,
video_assembler_longform.py lines 790-808): when the output file exists, a
verification failure only downgrades SUCCESS to WARNING and the output path
is printed either way; the second component records whether the stage exits
with a non-zero status. -/
def assemblyFinalReport (outputExists : Bool) (verified : Bool) (path : String) :
    FinalReport × Bool :=
  if outputExists then
    (if verified then (.success path, false) else (.warning path, false))
  else (.failed, true)

/-! ## FFmpeg filter graphs built by the per-segment renderers

The renderers build `-filter_complex` strings; here each comma-separated
stage is one constructor of `VFilter` (a pre-serialisation AST; the
`escape_text_for_ffmpeg` escaping and the x/y layout expressions of
`drawtext` are serialisation detail and are not needed by any claim).
Temporal semantics (`applyVFilter`) interprets the stages that move or cut
presentation time — `trim`, `setpts`, `loop` — over continuous time `ℚ`
(frame quantisation and `loop`'s `size=9999` frame cap are below the model's
resolution); all purely spatial stages leave timing unchanged. -/

/-- One FFmpeg filter stage. -/
inductive VFilter
  | trimStartDur (start duration : ℚ)
  | trimStart (start : ℚ)
  | trimDur (duration : ℚ)
  | setpts
  | loopFilter (count : ℤ) (size : Nat)
  | scaleDecrease (w h : Nat)
  | padCenter (w h : Nat)
  | scaleIncrease (w h : Nat)
  | cropCenter (w h : Nat)
  | boxblur (radius power : Nat)
  | overlayCenter
  | drawtext (txt : String) (color : String)
  | nullFilter
deriving DecidableEq

/-- Is the stage the `loop` filter? -/
def isLoopFilter : VFilter → Bool
  | .loopFilter _ _ => true
  | _ => false

/-- Long-form text overlay (video_assembler_longform.py lines 139-197): with
`--no-text` the text filter is `null`; otherwise one shadow `drawtext` and
one team-coloured `drawtext` per wrapped caption line (`max_chars=70`),
falling back to `null` when there are no lines. -/
def longformTextFilter (noText : Bool) (segText : String) : List VFilter :=
  if noText then [VFilter.nullFilter]
  else
    let lines := wrap_text segText 70
    let color := get_team_color segText
    let fs := lines.flatMap (fun ln => [VFilter.drawtext ln "black", VFilter.drawtext ln color])
    if fs.isEmpty then [VFilter.nullFilter] else fs

/-- Short-form text overlay (video_assembler.py lines 102-149): shadow and
team-coloured `drawtext` per wrapped caption line (`max_chars=25`). -/
def shortTextFilter (segText : String) : List VFilter :=
  let lines := wrap_text segText 25
  let color := get_team_color segText
  let fs := lines.flatMap (fun ln => [VFilter.drawtext ln "black", VFilter.drawtext ln color])
  if fs.isEmpty then [VFilter.nullFilter] else fs

/-- Long-form `create_segment_video` filter chain
(video_assembler_longform.py lines 199-222): when the footage available
after the offset covers the audio, a single `trim start duration`; otherwise
`trim start`, `loop` with `int(audio_duration / max(available_duration, 1)) + 2`
extra plays, and a `trim duration`; in both cases followed by
scale(decrease) and centred pad to the target frame and the text filter. -/
def longform_segment_filter (width height : Nat) (startTime audioDur footageDur : ℚ)
    (noText : Bool) (segText : String) : List VFilter :=
  let availableDur := footageDur - startTime
  if audioDur ≤ availableDur then
    [VFilter.trimStartDur startTime audioDur, VFilter.setpts,
     VFilter.scaleDecrease width height, VFilter.padCenter width height] ++
    longformTextFilter noText segText
  else
    let loopCount := pyInt (audioDur / max availableDur 1) + 2
    [VFilter.trimStart startTime, VFilter.setpts,
     VFilter.loopFilter loopCount 9999,
     VFilter.trimDur audioDur, VFilter.setpts,
     VFilter.scaleDecrease width height, VFilter.padCenter width height] ++
    longformTextFilter noText segText

/-- Short-form `create_segment_video` filter graph (video_assembler.py lines
150-159): trim+setpts, then a split into a blurred cover background and a
scaled-to-fit foreground, overlaid and captioned. -/
structure ShortFilterGraph where
  pre : List VFilter
  bg : List VFilter
  fg : List VFilter
  post : List VFilter
deriving DecidableEq

/-- The short-form filter graph for one segment. -/
def short_segment_filter (startTime audioDur : ℚ) (segText : String) : ShortFilterGraph :=
  { pre := [VFilter.trimStartDur startTime audioDur, VFilter.setpts],
    bg := [VFilter.scaleIncrease OUTPUT_WIDTH OUTPUT_HEIGHT,
           VFilter.cropCenter OUTPUT_WIDTH OUTPUT_HEIGHT, VFilter.boxblur 20 5],
    fg := [VFilter.scaleDecrease OUTPUT_WIDTH OUTPUT_HEIGHT],
    post := VFilter.overlayCenter :: shortTextFilter segText }

/-- All stages of a short-form graph, for quantifying over them. -/
def ShortFilterGraph.allFilters (g : ShortFilterGraph) : List VFilter :=
  g.pre ++ g.bg ++ g.fg ++ g.post

/-- A clip in the temporal semantics: its duration and the map from output
presentation time to source-footage time. -/
structure TClip where
  len : ℚ
  src : ℚ → ℚ

/-- `t` reduced modulo a (positive) clip length. -/
def qmod (t len : ℚ) : ℚ :=
  t - len * (Int.floor (t / len) : ℤ)

/-- Temporal effect of one filter stage.  `trim` resets timestamps together
with the `setpts=PTS-STARTPTS` that always follows it in these chains;
`loop=loop=N` plays the clip N additional times; spatial stages are
temporal identities. -/
def applyVFilter (c : TClip) : VFilter → TClip
  | .trimStartDur s d => { len := max 0 (min d (c.len - s)), src := fun t => c.src (s + t) }
  | .trimStart s => { len := max 0 (c.len - s), src := fun t => c.src (s + t) }
  | .trimDur d => { len := max 0 (min d c.len), src := c.src }
  | .loopFilter n _ =>
    if 0 < c.len ∧ 0 ≤ n then
      { len := ((n : ℚ) + 1) * c.len, src := fun t => c.src (qmod t c.len) }
    else c
  | _ => c

/-- Run a filter chain on a clip. -/
def runChain (c : TClip) (fs : List VFilter) : TClip :=
  fs.foldl applyVFilter c

/-- The raw footage as a clip: output time equals source time. -/
def sourceClip (footageDur : ℚ) : TClip :=
  { len := footageDur, src := fun t => t }

/-! ## Long-form concurrent assembly: clip ordering for concatenation
(video_assembler_longform.py lines 703-749)

In the concurrent branch, `segment_videos` collects
`f"{temp_dir}/segment_{idx:02d}.mp4"` in completion order, then
`segment_videos.sort(key=lambda x: int(x.split('_')[-1].replace('.mp4', '')))`
restores manifest order, and the outro clip (when created) is appended after
the sort; the concat list file is written in this final order. -/

/-- `f"{temp_dir}/segment_{idx:02d}.mp4"`. -/
def segmentVideoPath (tempDir : List Char) (i : Nat) : List Char :=
  tempDir ++ "/segment_".data ++ pad2 i ++ ".mp4".data

/-- The sort key `int(x.split('_')[-1].replace('.mp4', ''))`. -/
def clipSortKey (x : List Char) : Nat :=
  parseNat (pyReplace ".mp4".data [] ((splitOnChar '_' x).getLastD []))

/-- The list of clip paths handed to the concat step, from the completion
order of the concurrent render tasks: sort by `clipSortKey`, then append the
outro clip when present. -/
def longformConcatList (tempDir : List Char) (completionOrder : List Nat)
    (outro : Option (List Char)) : List (List Char) :=
  let vids := completionOrder.map (segmentVideoPath tempDir)
  let sorted := vids.mergeSort (fun a b => clipSortKey a ≤ clipSortKey b)
  match outro with
  | some o => sorted ++ [o]
  | none => sorted

/-! ## External-call traces of the caching stages

Each stage's per-item worker is modelled as a function from oracles for the
observable environment — file existence (`fs`), probed durations, search
results, whether an external tool produced its output — to the list of
external calls the worker performs plus its returned value.  The oracles are
read-only: the model asserts which calls happen, not what they do. -/

/-- One external tool or API invocation. -/
inductive ExtCall
  | ffprobeCall (path : String)
  | ttsRequest (text : String)
  | ytSearch (query : String)
  | ytDownload (videoId : String)
  | ffmpegFrame (t : Nat) (outPath : String)
  | ffmpegRender (outPath : String)
deriving DecidableEq

/-- Result tuple of `audio_generator.process_segment`. -/
structure AudioOutcome where
  idx : Nat
  success : Bool
  duration : ℚ
  status : Option String
deriving DecidableEq

/-- `audio_generator.process_segment` (lines 49-62): if the audio file
already exists, probe its duration and report `"cached"`; otherwise one TTS
API request, and on success a duration probe of the written file. -/
def process_segment (fs : String → Bool) (probedDur : String → ℚ)
    (ttsOk : Bool) (ttsErr : String) (idx : Nat) (segText audioPath : String) :
    List ExtCall × AudioOutcome :=
  if fs audioPath then
    ([ExtCall.ffprobeCall audioPath], ⟨idx, true, probedDur audioPath, some "cached"⟩)
  else if ttsOk then
    ([ExtCall.ttsRequest segText, ExtCall.ffprobeCall audioPath],
     ⟨idx, true, probedDur audioPath, none⟩)
  else
    ([ExtCall.ttsRequest segText], ⟨idx, false, 0, some ttsErr⟩)

/-- Result tuple of `footage_downloader.download_segment`. -/
structure DownloadOutcome where
  idx : Nat
  success : Bool
  title : Option String
  err : Option String
deriving DecidableEq

/-- `footage_downloader.download_segment` (lines 51-69): if the footage file
already exists, return `"cached"` with no external call at all; otherwise
one `yt-dlp` search and, when it returns a result, one download whose
success is the existence of the output file.  Search results are
(title, video-id) pairs; the reported title is truncated to 50 characters. -/
def download_segment (fs : String → Bool)
    (searchResults : String → List (String × String)) (dlOk : String → Bool)
    (idx : Nat) (query : String) (footageDir footageFile : String) :
    List ExtCall × DownloadOutcome :=
  let fullPath := footageDir ++ "/" ++ footageFile
  if fs fullPath then
    ([], ⟨idx, true, some "cached", none⟩)
  else
    match searchResults query with
    | [] => ([ExtCall.ytSearch query], ⟨idx, false, none, some "No search results"⟩)
    | v :: _ =>
      if dlOk v.2 then
        ([ExtCall.ytSearch query, ExtCall.ytDownload v.2],
         ⟨idx, true, some (String.mk (v.1.data.take 50)), none⟩)
      else
        ([ExtCall.ytSearch query, ExtCall.ytDownload v.2],
         ⟨idx, false, none, some "download error"⟩)

/-- Python `f"{t:03d}"`. -/
def pad3 (n : Nat) : List Char :=
  if n < 10 then '0' :: '0' :: renderNat n
  else if n < 100 then '0' :: renderNat n
  else renderNat n

/-- Python `range(0, stop, step)` for positive `step`. -/
def pyRangeStep (stop step : Nat) : List Nat :=
  (List.range ((stop + step - 1) / step)).map (fun k => k * step)

/-- `preview_extractor.extract_frames` (lines 41-70): probe the footage
duration, then run one `ffmpeg` frame extraction per sample time — there is
no existence check on the target frame files; returns the (time, path)
pairs whose frame file exists after the run. -/
def extract_frames (fs : String → Bool) (probedDur : String → ℚ)
    (videoPath outputDir nm : String) (interval : Nat) :
    List ExtCall × List (Nat × String) :=
  let stop := (pyInt (probedDur videoPath)).toNat
  let tasks := (pyRangeStep stop interval).map
    (fun t => (t, outputDir ++ "/" ++ nm ++ "_t" ++ String.mk (pad3 t) ++ ".jpg"))
  (ExtCall.ffprobeCall videoPath :: tasks.map (fun p => ExtCall.ffmpegFrame p.1 p.2),
   tasks.filter (fun p => fs p.2))

/-! ## Short-form assembler: missing footage handling
(video_assembler.py lines 93-97 and 276-296) -/

/-- A manifest segment as the short-form assembler consumes it
(`footage` is a required key there). -/
structure ShortSegment where
  text : String
  context : String
  footage : String
  footageStart : ℚ
deriving DecidableEq

/-- External behaviour of the short-form `create_segment_video`: when the
footage file is missing, fail with the `Missing footage` diagnostic and make
no external call; otherwise probe the audio duration and run one `ffmpeg`
render, succeeding iff the output file exists afterwards (`rendered`). -/
def create_segment_video_calls (fs rendered : String → Bool)
    (seg : ShortSegment) (audioPath footageDir outputPath : String) :
    List ExtCall × (Bool × Option String) :=
  if fs (footageDir ++ "/" ++ seg.footage) = false then
    ([], (false, some ("Missing footage: " ++ seg.footage)))
  else
    ([ExtCall.ffprobeCall audioPath, ExtCall.ffmpegRender outputPath],
     if rendered outputPath then (true, none) else (false, some "ffmpeg error"))

/-- `f"{audio_dir}/segment_{i:02d}.mp3"`. -/
def audioPathShort (audioDir : String) (i : Nat) : String :=
  audioDir ++ "/segment_" ++ String.mk (pad2 i) ++ ".mp3"

/-- `f"{temp_dir}/segment_{i:02d}.mp4"` (as a `String`). -/
def videoPathShort (tempDir : String) (i : Nat) : String :=
  String.mk (segmentVideoPath tempDir.data i)

/-- The per-segment loop of the short-form `main` over the enumerated
segment list: successful renders append their clip path to
`segment_videos`, failures are reported with their diagnostic and skipped. -/
def shortSegmentLoop (fs rendered : String → Bool)
    (audioDir footageDir tempDir : String) :
    List (Nat × ShortSegment) → List String × List (Nat × String)
  | [] => ([], [])
  | (i, seg) :: rest =>
    let r := shortSegmentLoop fs rendered audioDir footageDir tempDir rest
    match (create_segment_video_calls fs rendered seg (audioPathShort audioDir i)
            footageDir (videoPathShort tempDir i)).2 with
    | (true, _) => (videoPathShort tempDir i :: r.1, r.2)
    | (false, e) => (r.1, (i, e.getD "") :: r.2)

/-- Short-form `main`'s segment stage (lines 276-296): run the loop over the
enumerated segments; the stage aborts (`sys.exit(1)`) iff no segment
produced a clip; otherwise the concat list is exactly `segment_videos`. -/
def short_main_segments (fs rendered : String → Bool) (segs : List ShortSegment)
    (audioDir footageDir tempDir : String) :
    List String × List (Nat × String) × Bool :=
  let r := shortSegmentLoop fs rendered audioDir footageDir tempDir segs.enum
  (r.1, r.2, r.1.isEmpty)

/-! ## Footage stage, download-all mode (footage_downloader.py lines 146-203) -/

/-- A manifest segment with the fields the pipeline reads
(§6 of the data model; `references` are (source, url) pairs). -/
structure Segment where
  text : String
  context : String
  footage : Option String
  footageQuery : Option String
  footageStart : ℚ
  references : List (String × String)
  sectionLabel : Option String
deriving DecidableEq

/-- `seg.get('footage', f'segment_{i:02d}.mp4')` (line 156). -/
def footageFileName (i : Nat) (seg : Segment) : String :=
  seg.footage.getD (String.mk ("segment_".data ++ pad2 i ++ ".mp4".data))

/-- `seg.get('footage_query', seg['text'][:50])` (line 60). -/
def footageQueryOf (seg : Segment) : String :=
  seg.footageQuery.getD (String.mk (seg.text.data.take 50))

/-- `f'segment_{i:02d}.mp4'`, the name written back into the manifest on a
successful download (lines 173 and 194). -/
def segmentMp4Name (i : Nat) : String :=
  String.mk ("segment_".data ++ pad2 i ++ ".mp4".data)

/-- Events of the footage stage's `main` in download-all mode: external
calls plus the single `json.dump` of the updated manifest. -/
inductive FootageMainEvent
  | callEvt (c : ExtCall)
  | saveScriptEvt
deriving DecidableEq

/-- The per-index download task of download-all mode (built from the
original manifest, as the task tuples are prepared before the pool runs). -/
def footageTask (fs : String → Bool)
    (searchResults : String → List (String × String)) (dlOk : String → Bool)
    (footageDir : String) (segs : List Segment) (i : Nat) :
    List ExtCall × DownloadOutcome :=
  match segs.get? i with
  | some seg =>
    download_segment fs searchResults dlOk i (footageQueryOf seg) footageDir
      (footageFileName i seg)
  | none => ([], ⟨i, false, none, some "index out of range"⟩)

/-- Manifest update applied when task `i`'s result is processed: the
`"cached"` sentinel leaves the entry alone, a successful download writes
`segment_{i:02d}.mp4` into `footage`, a failure changes nothing
(lines 169-199). -/
def footageApplyResult (fs : String → Bool)
    (searchResults : String → List (String × String)) (dlOk : String → Bool)
    (footageDir : String) (segs : List Segment)
    (ms : List Segment) (i : Nat) : List Segment :=
  let out := (footageTask fs searchResults dlOk footageDir segs i).2
  match segs.get? i with
  | some seg =>
    if out.title = some "cached" then ms
    else if out.success then ms.set i { seg with footage := some (segmentMp4Name i) }
    else ms
  | none => ms

/-- Download-all mode of `footage_downloader.main` (lines 146-203): tasks
are processed in completion order (`as_completed`), each updating its own
manifest entry; after all results are in, the manifest is written to
`script.json` exactly once. -/
def footage_main_all (fs : String → Bool)
    (searchResults : String → List (String × String)) (dlOk : String → Bool)
    (footageDir : String) (segs : List Segment) (completionOrder : List Nat) :
    List FootageMainEvent × List Segment :=
  let trace := completionOrder.flatMap
    (fun i => ((footageTask fs searchResults dlOk footageDir segs i).1).map FootageMainEvent.callEvt)
  let finalSegs := completionOrder.foldl
    (footageApplyResult fs searchResults dlOk footageDir segs) segs
  (trace ++ [FootageMainEvent.saveScriptEvt], finalSegs)

/-- A two-segment example manifest for the footage stage: segment 0's
footage file is already on disk, segment 1 needs a download. -/
def exampleFootageSegs : List Segment :=
  [⟨"text zero", "c0", some "segment_00.mp4", some "q0", 0, [], none⟩,
   ⟨"text one", "c1", none, some "Monaco highlights", 0, [], none⟩]

/-- File-system oracle for the example: only segment 0's footage exists. -/
def exampleFs : String → Bool := fun p => p == "footage/segment_00.mp4"

/-- Search oracle for the example: every query returns one result. -/
def exampleSearch : String → List (String × String) :=
  fun _ => [("Race Highlights", "vid1")]

/-- The example download-all run, with segment 1 completing before 0. -/
def exampleFootageRun : List FootageMainEvent × List Segment :=
  footage_main_all exampleFs exampleSearch (fun _ => true) "footage"
    exampleFootageSegs [1, 0]

/-! # Theorems -/

/-! ## Decimal rendering and parsing -/

theorem digitChar_toNat_sub (d : Nat) (hd : d < 10) : (Nat.digitChar d).toNat - 48 = d := by
  interval_cases d <;> decide

theorem digitChar_isDigit (d : Nat) (hd : d < 10) : (Nat.digitChar d).isDigit = true := by
  interval_cases d <;> decide

theorem renderNatAux_zero (fuel : Nat) : renderNatAux fuel 0 = [] := by
  cases fuel <;> rfl

theorem foldl_renderNatAux (fuel : Nat) :
    ∀ n, 0 < n → n ≤ fuel → ∀ a : Nat,
      (renderNatAux fuel n).foldl (fun x c => x * 10 + (c.toNat - 48)) a
        = a * 10 ^ (renderNatAux fuel n).length + n := by
  induction fuel with
  | zero => intro n h1 h2; omega
  | succ fuel ih =>
    intro n h1 h2 a
    match n, h1 with
    | m + 1, _ =>
      rw [renderNatAux, List.foldl_append]
      have hmod : (m + 1) % 10 < 10 := Nat.mod_lt _ (by omega)
      by_cases h10 : (m + 1) / 10 = 0
      · rw [h10, renderNatAux_zero]
        have hm : (m + 1) % 10 = m + 1 := Nat.mod_eq_of_lt (by omega)
        simp only [List.foldl_nil, List.foldl_cons, List.nil_append, List.length_cons,
          List.length_nil, pow_one, List.length_append]
        rw [digitChar_toNat_sub _ hmod, hm]
        ring
      · have hdiv : (m + 1) / 10 < m + 1 := Nat.div_lt_self (by omega) (by omega)
        rw [ih ((m + 1) / 10) (by omega) (by omega) a]
        simp only [List.foldl_cons, List.foldl_nil, List.length_append, List.length_cons,
          List.length_nil, Nat.zero_add]
        rw [digitChar_toNat_sub _ hmod, pow_succ]
        have hdm : (m + 1) / 10 * 10 + (m + 1) % 10 = m + 1 := by omega
        linarith [hdm]

theorem parseNat_renderNat (n : Nat) : parseNat (renderNat n) = n := by
  unfold renderNat
  by_cases h : n = 0
  · subst h; decide
  · rw [if_neg h]
    have := foldl_renderNatAux n n (by omega) (le_refl n) 0
    simpa [parseNat] using this

theorem renderNatAux_isDigit (fuel : Nat) :
    ∀ n, ∀ c ∈ renderNatAux fuel n, c.isDigit = true := by
  induction fuel with
  | zero => intro n c hc; simp [renderNatAux] at hc
  | succ fuel ih =>
    intro n c hc
    match n with
    | 0 => simp [renderNatAux] at hc
    | n + 1 =>
      rw [renderNatAux] at hc
      rcases List.mem_append.mp hc with h | h
      · exact ih _ c h
      · rcases List.mem_singleton.mp h with rfl
        exact digitChar_isDigit _ (Nat.mod_lt _ (by omega))

theorem renderNat_isDigit (n : Nat) : ∀ c ∈ renderNat n, c.isDigit = true := by
  unfold renderNat
  by_cases h : n = 0
  · subst h; decide
  · rw [if_neg h]; exact renderNatAux_isDigit n n

theorem pad2_isDigit (n : Nat) : ∀ c ∈ pad2 n, c.isDigit = true := by
  unfold pad2
  by_cases h : n < 10
  · rw [if_pos h]
    intro c hc
    rcases hc with _ | hc
    · decide
    · exact renderNat_isDigit n c (by assumption)
  · rw [if_neg h]; exact renderNat_isDigit n

theorem parseNat_cons_zero (l : List Char) : parseNat ('0' :: l) = parseNat l := rfl

theorem parseNat_pad2 (n : Nat) : parseNat (pad2 n) = n := by
  unfold pad2
  by_cases h : n < 10
  · rw [if_pos h, parseNat_cons_zero, parseNat_renderNat]
  · rw [if_neg h, parseNat_renderNat]

/-! ## Python split / replace lemmas for the concat-sort key -/

theorem splitOnChar_ne_nil (sep : Char) (l : List Char) : splitOnChar sep l ≠ [] := by
  cases l with
  | nil => simp [splitOnChar]
  | cons c rest =>
    simp only [splitOnChar]
    cases h : splitOnChar sep rest with
    | nil => simp
    | cons a t => by_cases hc : c == sep <;> simp [hc]

theorem splitOnChar_of_not_mem (sep : Char) (l : List Char) (h : sep ∉ l) :
    splitOnChar sep l = [l] := by
  induction l with
  | nil => rfl
  | cons c rest ih =>
    have hc : c ≠ sep := fun hce => h (hce ▸ List.mem_cons_self c rest)
    have hrest : sep ∉ rest := fun hm => h (List.mem_cons_of_mem c hm)
    simp only [splitOnChar, ih hrest]
    simp [beq_iff_eq, hc]

theorem two_le_length_splitOnChar (sep : Char) (l : List Char) (h : sep ∈ l) :
    2 ≤ (splitOnChar sep l).length := by
  induction l with
  | nil => simp at h
  | cons c rest ih =>
    simp only [splitOnChar]
    cases hs : splitOnChar sep rest with
    | nil => exact absurd hs (splitOnChar_ne_nil sep rest)
    | cons a t =>
      by_cases hc : c == sep
      · simp [hc]
      · have hmem : sep ∈ rest := by
          rcases List.mem_cons.mp h with h1 | h1
          · exact absurd (by simp [beq_iff_eq, h1] : (c == sep) = true) hc
          · exact h1
        simp only [hc, Bool.false_eq_true, if_false, List.length_cons]
        have := ih hmem
        rw [hs] at this
        simp only [List.length_cons] at this
        omega

theorem getLastD_indep {α : Type} (l : List α) (h : l ≠ []) (a b : α) :
    l.getLastD a = l.getLastD b := by
  cases l with
  | nil => exact absurd rfl h
  | cons x rest => rw [List.getLastD_cons, List.getLastD_cons]

theorem splitOnChar_getLastD_append (sep : Char) (a b : List Char) (hb : sep ∉ b) :
    (splitOnChar sep (a ++ sep :: b)).getLastD [] = b := by
  induction a with
  | nil =>
    simp only [List.nil_append, splitOnChar, splitOnChar_of_not_mem sep b hb]
    simp [List.getLastD_cons]
  | cons c a' ih =>
    have hmem : sep ∈ a' ++ sep :: b := List.mem_append.mpr (Or.inr (List.mem_cons_self _ _))
    simp only [List.cons_append, splitOnChar]
    cases hs : splitOnChar sep (a' ++ sep :: b) with
    | nil => exact absurd hs (splitOnChar_ne_nil sep _)
    | cons hh t =>
      have hlen := two_le_length_splitOnChar sep _ hmem
      rw [hs] at hlen
      have ht : t ≠ [] := by
        cases t with
        | nil => simp at hlen
        | cons _ _ => simp
      have hgl : (hh :: t).getLastD [] = b := by rw [← hs]; exact ih
      rw [List.getLastD_cons] at hgl
      by_cases hc : c == sep
      · simp only [hc, if_true, List.getLastD_cons]
        rw [getLastD_indep t ht _ hh]
        exact hgl
      · simp only [hc, Bool.false_eq_true, if_false, List.getLastD_cons]
        rw [getLastD_indep t ht _ hh]
        exact hgl

theorem replaceFuel_nil (pat repl : List Char) (fuel : Nat) :
    replaceFuel pat repl fuel [] = [] := by
  cases fuel <;> rfl

theorem digit_ne_dot (c : Char) (h : c.isDigit = true) : c ≠ '.' := by
  rintro rfl; exact absurd h (by decide)

theorem digit_ne_underscore (c : Char) (h : c.isDigit = true) : c ≠ '_' := by
  rintro rfl; exact absurd h (by decide)

theorem replaceFuel_digits_mp4 (d : List Char) (hd : ∀ c ∈ d, c.isDigit = true) :
    ∀ fuel, d.length + 4 ≤ fuel →
      replaceFuel ".mp4".data [] fuel (d ++ ".mp4".data) = d := by
  induction d with
  | nil =>
    intro fuel hf
    cases fuel with
    | zero => omega
    | succ f =>
      simp only [List.nil_append]
      show replaceFuel ".mp4".data [] (f + 1) ('.' :: "mp4".data) = []
      rw [replaceFuel]
      rw [if_pos (by decide)]
      have hdrop : List.drop (".mp4".data.length - 1) "mp4".data = [] := rfl
      rw [hdrop, replaceFuel_nil]
      rfl
  | cons c d' ih =>
    intro fuel hf
    have hc : c.isDigit = true := hd c (List.mem_cons_self _ _)
    have hd' : ∀ x ∈ d', x.isDigit = true := fun x hx => hd x (List.mem_cons_of_mem c hx)
    cases fuel with
    | zero => omega
    | succ f =>
      simp only [List.cons_append]
      rw [replaceFuel]
      have hne : ('.' == c) = false := by
        rw [beq_eq_false_iff_ne]
        exact fun h => (digit_ne_dot c hc) h.symm
      have hsw : startsWithList ".mp4".data (c :: (d' ++ ".mp4".data)) = false := by
        show startsWithList ('.' :: "mp4".data) (c :: (d' ++ ".mp4".data)) = false
        rw [startsWithList, hne]
        rfl
      rw [if_neg (by simp [hsw])]
      have hlen : d'.length + 4 ≤ f := by
        simp only [List.length_cons] at hf
        omega
      rw [ih hd' f hlen]

theorem pad2_mp4_no_underscore (i : Nat) : '_' ∉ pad2 i ++ ".mp4".data := by
  intro hm
  rcases List.mem_append.mp hm with h | h
  · exact digit_ne_underscore '_' (pad2_isDigit i '_' h) rfl
  · revert h; decide

/-- The sort key of `segment_videos.sort` recovers the segment index from
the clip path, for every temp-directory prefix. -/
theorem clipSortKey_segmentVideoPath (tempDir : List Char) (i : Nat) :
    clipSortKey (segmentVideoPath tempDir i) = i := by
  unfold clipSortKey segmentVideoPath
  have hseg : "/segment_".data = "/segment".data ++ ['_'] := rfl
  rw [hseg]
  have hassoc : tempDir ++ ("/segment".data ++ ['_']) ++ pad2 i ++ ".mp4".data
      = (tempDir ++ "/segment".data) ++ '_' :: (pad2 i ++ ".mp4".data) := by
    simp [List.append_assoc]
  rw [hassoc, splitOnChar_getLastD_append '_' _ _ (pad2_mp4_no_underscore i)]
  unfold pyReplace
  rw [replaceFuel_digits_mp4 (pad2 i) (pad2_isDigit i) _ (by simp)]
  exact parseNat_pad2 i

/-! ## C1: concat-list ordering -/

theorem mergeSort_map_key (tempDir : List Char) (order : List Nat) :
    (order.map (segmentVideoPath tempDir)).mergeSort
        (fun a b => clipSortKey a ≤ clipSortKey b)
      = (order.mergeSort (fun a b => a ≤ b)).map (segmentVideoPath tempDir) := by
  have hkp : ∀ i, clipSortKey (segmentVideoPath tempDir i) = i :=
    clipSortKey_segmentVideoPath tempDir
  have htr : ∀ a b c : List Char,
      decide (clipSortKey a ≤ clipSortKey b) = true →
      decide (clipSortKey b ≤ clipSortKey c) = true →
      decide (clipSortKey a ≤ clipSortKey c) = true := by
    intro a b c hab hbc
    simp only [decide_eq_true_eq] at hab hbc ⊢
    omega
  have hto : ∀ a b : List Char,
      (decide (clipSortKey a ≤ clipSortKey b) || decide (clipSortKey b ≤ clipSortKey a)) = true := by
    intro a b
    simp only [Bool.or_eq_true, decide_eq_true_eq]
    omega
  have htrN : ∀ a b c : Nat, decide (a ≤ b) = true → decide (b ≤ c) = true →
      decide (a ≤ c) = true := by
    intro a b c hab hbc
    simp only [decide_eq_true_eq] at hab hbc ⊢
    omega
  have htoN : ∀ a b : Nat, (decide (a ≤ b) || decide (b ≤ a)) = true := by
    intro a b
    simp only [Bool.or_eq_true, decide_eq_true_eq]
    omega
  have hA_sorted := List.sorted_mergeSort htr hto (order.map (segmentVideoPath tempDir))
  have hA_perm := List.mergeSort_perm (order.map (segmentVideoPath tempDir))
    (fun a b => clipSortKey a ≤ clipSortKey b)
  have hS_sorted := List.sorted_mergeSort htrN htoN order
  have hS_perm := List.mergeSort_perm order (fun a b : Nat => a ≤ b)
  have hmapkey : (order.map (segmentVideoPath tempDir)).map clipSortKey = order := by
    rw [List.map_map]
    have h1 : ∀ i ∈ order, (clipSortKey ∘ segmentVideoPath tempDir) i = id i :=
      fun i _ => hkp i
    rw [List.map_congr_left h1, List.map_id]
  have hkey_eq :
      ((order.map (segmentVideoPath tempDir)).mergeSort
          (fun a b => clipSortKey a ≤ clipSortKey b)).map clipSortKey
        = order.mergeSort (fun a b : Nat => a ≤ b) := by
    apply List.eq_of_perm_of_sorted (r := fun a b : Nat => a ≤ b)
    · have hp1 := hA_perm.map clipSortKey
      rw [hmapkey] at hp1
      exact hp1.trans hS_perm.symm
    · exact List.Pairwise.map clipSortKey
        (fun a b h => by simpa [decide_eq_true_eq] using h) hA_sorted
    · exact hS_sorted.imp (fun h => by simpa [decide_eq_true_eq] using h)
  have hback : ∀ x ∈ (order.map (segmentVideoPath tempDir)).mergeSort
      (fun a b => clipSortKey a ≤ clipSortKey b),
      segmentVideoPath tempDir (clipSortKey x) = x := by
    intro x hx
    have hx2 : x ∈ order.map (segmentVideoPath tempDir) := hA_perm.mem_iff.mp hx
    rcases List.mem_map.mp hx2 with ⟨i, _, rfl⟩
    rw [hkp]
  calc (order.map (segmentVideoPath tempDir)).mergeSort
        (fun a b => clipSortKey a ≤ clipSortKey b)
      = ((order.map (segmentVideoPath tempDir)).mergeSort
          (fun a b => clipSortKey a ≤ clipSortKey b)).map
            (fun x => segmentVideoPath tempDir (clipSortKey x)) := by
        have h2 := List.map_congr_left
          (l := (order.map (segmentVideoPath tempDir)).mergeSort
            (fun a b => clipSortKey a ≤ clipSortKey b))
          (f := id) (g := fun x => segmentVideoPath tempDir (clipSortKey x))
          (fun x hx => (hback x hx).symm)
        rw [List.map_id] at h2
        exact h2
  _ = (((order.map (segmentVideoPath tempDir)).mergeSort
        (fun a b => clipSortKey a ≤ clipSortKey b)).map clipSortKey).map
          (segmentVideoPath tempDir) := by rw [List.map_map]; rfl
  _ = (order.mergeSort (fun a b : Nat => a ≤ b)).map (segmentVideoPath tempDir) := by
        rw [hkey_eq]

theorem mergeSort_nat_perm_eq (order order2 : List Nat) (hperm : order.Perm order2) :
    order.mergeSort (fun a b => a ≤ b) = order2.mergeSort (fun a b => a ≤ b) := by
  have htrN : ∀ a b c : Nat, decide (a ≤ b) = true → decide (b ≤ c) = true →
      decide (a ≤ c) = true := by
    intro a b c hab hbc
    simp only [decide_eq_true_eq] at hab hbc ⊢
    omega
  have htoN : ∀ a b : Nat, (decide (a ≤ b) || decide (b ≤ a)) = true := by
    intro a b
    simp only [Bool.or_eq_true, decide_eq_true_eq]
    omega
  apply List.eq_of_perm_of_sorted (r := fun a b : Nat => a ≤ b)
  · exact (List.mergeSort_perm order _).trans
      (hperm.trans (List.mergeSort_perm order2 _).symm)
  · exact (List.sorted_mergeSort htrN htoN order).imp
      (fun h => by simpa [decide_eq_true_eq] using h)
  · exact (List.sorted_mergeSort htrN htoN order2).imp
      (fun h => by simpa [decide_eq_true_eq] using h)

/-- C1: in the long-form assembler's concurrent mode, the list of
per-segment clips handed to concatenation is sorted by segment index before
concatenation — it equals the completed indices in ascending order mapped to
their clip paths, independently of the completion order — and the outro
clip, when present, is appended after the last segment. -/
theorem longform_concat_order (tempDir : List Char) (order order2 : List Nat)
    (hperm : order.Perm order2) (outro : Option (List Char)) :
    longformConcatList tempDir order outro = longformConcatList tempDir order2 outro
    ∧ longformConcatList tempDir order outro
        = (order.mergeSort (fun a b => a ≤ b)).map (segmentVideoPath tempDir)
          ++ outro.toList
    ∧ List.Pairwise (fun a b => a ≤ b) (order.mergeSort (fun a b : Nat => a ≤ b))
    ∧ (order.mergeSort (fun a b : Nat => a ≤ b)).Perm order := by
  have htrN : ∀ a b c : Nat, decide (a ≤ b) = true → decide (b ≤ c) = true →
      decide (a ≤ c) = true := by
    intro a b c hab hbc
    simp only [decide_eq_true_eq] at hab hbc ⊢
    omega
  have htoN : ∀ a b : Nat, (decide (a ≤ b) || decide (b ≤ a)) = true := by
    intro a b
    simp only [Bool.or_eq_true, decide_eq_true_eq]
    omega
  have hmain : ∀ ord : List Nat, longformConcatList tempDir ord outro
      = (ord.mergeSort (fun a b : Nat => a ≤ b)).map (segmentVideoPath tempDir)
        ++ outro.toList := by
    intro ord
    cases outro with
    | none =>
      simp only [longformConcatList, Option.toList_none, List.append_nil]
      exact mergeSort_map_key tempDir ord
    | some o =>
      simp only [longformConcatList, Option.toList_some]
      rw [mergeSort_map_key]
  refine ⟨?_, hmain order, ?_, List.mergeSort_perm order _⟩
  · rw [hmain order, hmain order2, mergeSort_nat_perm_eq order order2 hperm]
  · exact (List.sorted_mergeSort htrN htoN order).imp
      (fun h => by simpa [decide_eq_true_eq] using h)

/-- Witness for `longform_concat_order` at a concrete completion order. -/
theorem longform_concat_order_witness :
    longformConcatList "temp".data [2, 0, 1] (some "temp/outro.mp4".data)
      = longformConcatList "temp".data [0, 1, 2] (some "temp/outro.mp4".data)
    ∧ longformConcatList "temp".data [2, 0, 1] (some "temp/outro.mp4".data)
      = (([2, 0, 1] : List Nat).mergeSort (fun a b => a ≤ b)).map
          (segmentVideoPath "temp".data) ++ (some "temp/outro.mp4".data).toList :=
  ⟨(longform_concat_order "temp".data [2, 0, 1] [0, 1, 2] (by decide)
      (some "temp/outro.mp4".data)).1,
   (longform_concat_order "temp".data [2, 0, 1] [0, 1, 2] (by decide)
      (some "temp/outro.mp4".data)).2.1⟩

/-! ## C7: get_team_color -/

theorem find?_eq_get {α : Type} (l : List α) (p : α → Bool) (i : Fin l.length)
    (hi : p (l.get i) = true)
    (hj : ∀ j : Fin l.length, (j : Nat) < (i : Nat) → p (l.get j) = false) :
    l.find? p = some (l.get i) := by
  induction l with
  | nil => exact absurd i.isLt (by simp)
  | cons a rest ih =>
    match i, hi, hj with
    | ⟨0, h0⟩, hi, hj =>
      exact List.find?_cons_of_pos rest hi
    | ⟨k + 1, hk⟩, hi, hj =>
      have hk' : k < rest.length := by
        simp only [List.length_cons] at hk
        omega
      have ha : p a = false := by
        have := hj ⟨0, by simp⟩ (by simp)
        simpa using this
      rw [List.find?_cons_of_neg rest (by simp [ha])]
      have hi' : p (rest.get ⟨k, hk'⟩) = true := by simpa using hi
      have hj' : ∀ j : Fin rest.length, (j : Nat) < k → p (rest.get j) = false := by
        intro j hjk
        have hjlt : (j : Nat) + 1 < (a :: rest).length := by
          simp only [List.length_cons]
          omega
        have := hj ⟨(j : Nat) + 1, hjlt⟩ (by simpa using Nat.succ_lt_succ hjk)
        simpa using this
      have := ih ⟨k, hk'⟩ hi' hj'
      simpa using this

/-- C7: `get_team_color` returns the colour of the first keyword of
`F1_TEAM_COLORS` (in table order) occurring as a substring of the
lower-cased text, and the default `#FFFFFF` when no keyword occurs. -/
theorem get_team_color_spec (t : String) :
    ((∀ kc ∈ F1_TEAM_COLORS, occursIn kc.1.data (lowerStr t.data) = false) →
      get_team_color t = F1_DEFAULT_COLOR)
    ∧ (∀ i : Fin F1_TEAM_COLORS.length,
        occursIn (F1_TEAM_COLORS.get i).1.data (lowerStr t.data) = true →
        (∀ j : Fin F1_TEAM_COLORS.length, (j : Nat) < (i : Nat) →
          occursIn (F1_TEAM_COLORS.get j).1.data (lowerStr t.data) = false) →
        get_team_color t = (F1_TEAM_COLORS.get i).2) := by
  constructor
  · intro hnone
    unfold get_team_color
    rw [List.find?_eq_none.mpr (fun kc hkc => by simp [hnone kc hkc])]
  · intro i hi hj
    unfold get_team_color
    rw [find?_eq_get F1_TEAM_COLORS _ i hi hj]

/-- Witness for `get_team_color_spec`: a text with no keyword falls back to
the default colour; a text whose first matching keyword is `red bull`
(table index 0) gets the Red Bull colour. -/
theorem get_team_color_witness :
    get_team_color "strategy update for the race" = F1_DEFAULT_COLOR
    ∧ get_team_color "Red Bull pit stop" = "#3671C6" :=
  ⟨(get_team_color_spec "strategy update for the race").1 (by decide),
   (get_team_color_spec "Red Bull pit stop").2 ⟨0, by decide⟩ (by decide)
     (fun j hj => absurd hj (Nat.not_lt_zero _))⟩

/-! ## C6: output verification -/

/-- C6: the short-form verifier fails exactly when the probed stream
durations differ by more than 1.0 s; the long-form verifier fails exactly
when they differ by more than 2.0 s or the probed dimensions are positive
with width/height off 16:9 by more than 0.1; and when the output file
exists, a verification failure only downgrades the report to a warning that
still carries the output path — the stage does not abort. -/
theorem verify_output_spec (vd ad : ℚ) (w h : Nat) (path : String) :
    (verify_output_short vd ad = false ↔ 1 < pyAbs (vd - ad))
    ∧ (verify_output_long vd ad w h = false ↔
        (2 < pyAbs (vd - ad) ∨
          (0 < w ∧ 0 < h ∧ 1 / 10 < pyAbs ((w : ℚ) / (h : ℚ) - 16 / 9))))
    ∧ assemblyFinalReport true true path = (FinalReport.success path, false)
    ∧ assemblyFinalReport true false path = (FinalReport.warning path, false) := by
  refine ⟨?_, ?_, rfl, rfl⟩
  · unfold verify_output_short
    by_cases hc : pyAbs (vd - ad) > 1
    · simp [hc]
    · simp [hc]
  · unfold verify_output_long
    by_cases h1 : pyAbs (vd - ad) > 2
    · simp [h1]
    · by_cases h2 : 0 < w ∧ 0 < h
      · by_cases h3 : pyAbs ((w : ℚ) / (h : ℚ) - 16 / 9) > 1 / 10
        · simp [h1, h2, h3]
        · simp [h1, h2, h3]
      · simp [h1, h2]
        intro hw hh
        exact absurd ⟨hw, hh⟩ h2

/-! ## C9: fact-checker strict-mode exit codes -/

/-- C9: with `--strict`, the stage exits 2 iff some segment's overall
verdict is `disputed`, exits 1 iff none is disputed but some overall
verdict is `unverified`; without the flag the verdicts never cause a
non-zero exit. -/
theorem fact_checker_strict_exit (segVerdicts : List (List Verdict)) :
    (strictExitCode true (segVerdicts.map check_segment_overall) = some 2 ↔
      Overall.disputed ∈ segVerdicts.map check_segment_overall)
    ∧ (strictExitCode true (segVerdicts.map check_segment_overall) = some 1 ↔
        (Overall.disputed ∉ segVerdicts.map check_segment_overall ∧
         Overall.unverified ∈ segVerdicts.map check_segment_overall))
    ∧ strictExitCode false (segVerdicts.map check_segment_overall) = none := by
  simp only [← List.count_pos_iff]
  by_cases hd : 0 < (segVerdicts.map check_segment_overall).count Overall.disputed <;>
    by_cases hu : 0 < (segVerdicts.map check_segment_overall).count Overall.unverified <;>
    simp [strictExitCode, hd, hu]

/-! ## C8: extract_claims -/

theorem filterMap_sublist_map {α β : Type} (f : α → Option β) (g : α → β) (l : List α)
    (h : ∀ a, f a = none ∨ f a = some (g a)) :
    List.Sublist (l.filterMap f) (l.map g) := by
  induction l with
  | nil => simp
  | cons a rest ih =>
    rcases h a with ha | ha
    · rw [List.filterMap_cons, ha, List.map_cons]
      exact ih.cons _
    · rw [List.filterMap_cons, ha, List.map_cons]
      exact ih.cons₂ _

/-- C8: `extract_claims` returns the empty list when no sentence matches any
recognised pattern; returns at least one claim when some sentence matches
the year or the statistic pattern; and the returned claims form a sublist of
the stripped sentences of the input (each claim is a full sentence, added at
most once per sentence). -/
theorem extract_claims_spec (t : String) :
    ((∀ s ∈ splitOnPred sentenceSepChar t.data, claimPats (stripChars s) = false) →
      extract_claims t = [])
    ∧ ((∃ s ∈ splitOnPred sentenceSepChar t.data,
          searchPat yearPatAt (lowerStr (stripChars s)) = true ∨
          searchPat statPatAt (lowerStr (stripChars s)) = true) →
        extract_claims t ≠ [])
    ∧ List.Sublist (extract_claims t)
        ((splitOnPred sentenceSepChar t.data).map (fun s => String.mk (stripChars s))) := by
  refine ⟨?_, ?_, ?_⟩
  · intro hall
    unfold extract_claims
    rw [List.filterMap_eq_nil_iff]
    intro s hs
    simp [hall s hs]
  · rintro ⟨s, hs, hpat⟩
    have hcp : claimPats (stripChars s) = true := by
      unfold claimPats
      rcases hpat with hp | hp <;> simp [hp]
    have hne : stripChars s ≠ [] := by
      intro h0
      rcases hpat with hp | hp <;> rw [h0] at hp <;> exact absurd hp (by decide)
    have hne' : (stripChars s).isEmpty = false := by
      cases hstrip : stripChars s with
      | nil => exact absurd hstrip hne
      | cons c r => rfl
    intro hnil
    unfold extract_claims at hnil
    rw [List.filterMap_eq_nil_iff] at hnil
    have := hnil s hs
    simp [hne', hcp] at this
  · apply filterMap_sublist_map
    intro s
    by_cases h1 : (stripChars s).isEmpty
    · left; simp [h1]
    · by_cases h2 : claimPats (stripChars s)
      · right; simp [h1, h2]
      · left; simp [h1, h2]

/-- Witness for `extract_claims_spec`: a pattern-free text yields no
claims; a text with a sentence matching the year pattern yields a claim. -/
theorem extract_claims_witness :
    extract_claims "The pit lane was quiet" = []
    ∧ extract_claims "Hamilton dominated in 2020" ≠ [] :=
  ⟨(extract_claims_spec "The pit lane was quiet").1 (by decide),
   (extract_claims_spec "Hamilton dominated in 2020").2.1 (by decide)⟩

/-! ## C10: wrap_text -/

theorem splitWsAcc_mem (l : List Char) :
    ∀ cur, (∀ c ∈ cur, c.isWhitespace = false) →
      ∀ w ∈ splitWsAcc cur l, w ≠ [] ∧ ∀ c ∈ w, c.isWhitespace = false := by
  induction l with
  | nil =>
    intro cur hcur w hw
    by_cases hc : cur.isEmpty
    · rw [splitWsAcc, if_pos hc] at hw
      simp at hw
    · rw [splitWsAcc, if_neg hc] at hw
      rcases List.mem_singleton.mp hw with rfl
      exact ⟨fun he => by simp [he] at hc, hcur⟩
  | cons c r ih =>
    intro cur hcur w hw
    by_cases hws : c.isWhitespace
    · by_cases hc : cur.isEmpty
      · rw [splitWsAcc, if_pos hws, if_pos hc] at hw
        exact ih [] (by simp) w hw
      · rw [splitWsAcc, if_pos hws, if_neg hc] at hw
        rcases List.mem_cons.mp hw with rfl | hw2
        · exact ⟨fun he => by simp [he] at hc, hcur⟩
        · exact ih [] (by simp) w hw2
    · rw [splitWsAcc, if_neg hws] at hw
      refine ih (cur ++ [c]) ?_ w hw
      intro x hx
      rcases List.mem_append.mp hx with hx | hx
      · exact hcur x hx
      · rcases List.mem_singleton.mp hx with rfl
        simpa using hws

theorem splitWsAcc_absorb (w : List Char) (hw : ∀ c ∈ w, c.isWhitespace = false) :
    ∀ cur l, splitWsAcc cur (w ++ l) = splitWsAcc (cur ++ w) l := by
  induction w with
  | nil => intro cur l; simp
  | cons c w' ih =>
    intro cur l
    have hc : c.isWhitespace = false := hw c (List.mem_cons_self _ _)
    rw [List.cons_append, splitWsAcc, if_neg (by simp [hc])]
    rw [ih (fun x hx => hw x (List.mem_cons_of_mem _ hx)) (cur ++ [c]) l]
    simp

theorem joinWords_cons_cons (w w2 : List Char) (rest : List (List Char)) :
    joinWords (w :: w2 :: rest) = w ++ ' ' :: joinWords (w2 :: rest) := rfl

theorem joinWords_ne_nil (g : List (List Char)) (hg : g ≠ []) (hw : ∀ w ∈ g, w ≠ []) :
    joinWords g ≠ [] := by
  match g, hg with
  | [w], _ => exact hw w (by simp)
  | w :: w2 :: rest, _ =>
    rw [joinWords_cons_cons]
    intro hcontra
    simp at hcontra

theorem joinWords_concat (g : List (List Char)) (hg : g ≠ []) (w : List Char) :
    joinWords (g ++ [w]) = joinWords g ++ ' ' :: w := by
  induction g with
  | nil => exact absurd rfl hg
  | cons x rest ih =>
    cases rest with
    | nil => rfl
    | cons y rest2 =>
      have h1 : (x :: y :: rest2) ++ [w] = x :: y :: (rest2 ++ [w]) := by simp
      rw [h1, joinWords_cons_cons, joinWords_cons_cons]
      have h2 : (y :: rest2) ++ [w] = y :: (rest2 ++ [w]) := by simp
      rw [← h2, ih (by simp)]
      simp

theorem joinWords_concat_length (g : List (List Char)) (hg : g ≠ []) (w : List Char) :
    (joinWords (g ++ [w])).length = (joinWords g).length + 1 + w.length := by
  rw [joinWords_concat g hg w]
  simp only [List.length_append, List.length_cons]
  omega

theorem pySplitWs_joinWords (g : List (List Char)) :
    (∀ w ∈ g, w ≠ []) → (∀ w ∈ g, ∀ c ∈ w, c.isWhitespace = false) →
    pySplitWs (joinWords g) = g := by
  induction g with
  | nil => intro _ _; rfl
  | cons w rest ih =>
    intro hne hwf
    cases rest with
    | nil =>
      show splitWsAcc [] (joinWords [w]) = [w]
      have hjw : joinWords [w] = w := rfl
      rw [hjw]
      have habs := splitWsAcc_absorb w (hwf w (by simp)) [] []
      simp only [List.append_nil, List.nil_append] at habs
      rw [habs, splitWsAcc]
      have hwemp : w.isEmpty = false := by
        cases hw2 : w with
        | nil => exact absurd hw2 (hne w (by simp))
        | cons a b => rfl
      rw [if_neg (by simp [hwemp])]
    | cons w2 rest2 =>
      show splitWsAcc [] (joinWords (w :: w2 :: rest2)) = w :: w2 :: rest2
      rw [joinWords_cons_cons]
      have habs := splitWsAcc_absorb w (hwf w (by simp)) [] (' ' :: joinWords (w2 :: rest2))
      simp only [List.nil_append] at habs
      rw [habs, splitWsAcc, if_pos (by decide : (' ').isWhitespace = true)]
      have hwemp : w.isEmpty = false := by
        cases hw2 : w with
        | nil => exact absurd hw2 (hne w (by simp))
        | cons a b => rfl
      rw [if_neg (by simp [hwemp])]
      congr 1
      exact ih (fun x hx => hne x (by simp [hx])) (fun x hx => hwf x (by simp [hx]))

theorem wrapFold_flatten (m : Nat) (ws : List (List Char)) :
    ∀ st : WrapState,
      ((ws.foldl (wrapStep m) st).lines.flatten ++ (ws.foldl (wrapStep m) st).current)
        = st.lines.flatten ++ st.current ++ ws := by
  induction ws with
  | nil => intro st; simp
  | cons w rest ih =>
    intro st
    rw [List.foldl_cons, ih (wrapStep m st w)]
    unfold wrapStep
    by_cases hc : st.curLen + w.length + 1 ≤ m
    · rw [if_pos hc]
      simp
    · rw [if_neg hc]
      by_cases he : st.current = []
      · simp [he]
      · simp only [if_neg he, List.flatten_append]
        simp

theorem wrapStep_inv (m : Nat) (st : WrapState) (w : List Char)
    (h1 : ∀ g ∈ st.lines, g ≠ [] ∧ (2 ≤ g.length → (joinWords g).length ≤ m))
    (h2 : st.current = [] ∧ st.curLen = 0 ∨
       st.current ≠ [] ∧
       (st.curLen = (joinWords st.current).length ∨
        st.curLen = (joinWords st.current).length + 1) ∧
       (2 ≤ st.current.length → (joinWords st.current).length ≤ m)) :
    (∀ g ∈ (wrapStep m st w).lines, g ≠ [] ∧ (2 ≤ g.length → (joinWords g).length ≤ m)) ∧
    ((wrapStep m st w).current = [] ∧ (wrapStep m st w).curLen = 0 ∨
      (wrapStep m st w).current ≠ [] ∧
      ((wrapStep m st w).curLen = (joinWords (wrapStep m st w).current).length ∨
       (wrapStep m st w).curLen = (joinWords (wrapStep m st w).current).length + 1) ∧
      (2 ≤ (wrapStep m st w).current.length →
        (joinWords (wrapStep m st w).current).length ≤ m)) := by
  unfold wrapStep
  by_cases hc : st.curLen + w.length + 1 ≤ m
  · rw [if_pos hc]
    refine ⟨h1, Or.inr ?_⟩
    rcases h2 with ⟨hemp, hcl⟩ | ⟨hne, hδ, hbound⟩
    · rw [hemp]
      simp only [List.nil_append]
      refine ⟨by simp, Or.inr ?_, ?_⟩
      · show st.curLen + w.length + 1 = (joinWords [w]).length + 1
        have : joinWords [w] = w := rfl
        rw [this, hcl]
        omega
      · intro hlen
        simp at hlen
    · have hjc := joinWords_concat_length st.current hne w
      refine ⟨List.append_ne_nil_of_right_ne_nil _ (by simp), ?_, ?_⟩
      · show st.curLen + w.length + 1 = (joinWords (st.current ++ [w])).length ∨
          st.curLen + w.length + 1 = (joinWords (st.current ++ [w])).length + 1
        rw [hjc]
        rcases hδ with h | h
        · left; omega
        · right; omega
      · intro _
        show (joinWords (st.current ++ [w])).length ≤ m
        rw [hjc]
        rcases hδ with h | h <;> omega
  · rw [if_neg hc]
    constructor
    · intro g hg
      by_cases he : st.current = []
      · rw [if_pos he] at hg
        exact h1 g hg
      · rw [if_neg he] at hg
        rcases List.mem_append.mp hg with hg | hg
        · exact h1 g hg
        · rcases List.mem_singleton.mp hg with rfl
          rcases h2 with ⟨hemp, _⟩ | ⟨hne, _, hbound⟩
          · exact absurd hemp he
          · exact ⟨hne, hbound⟩
    · refine Or.inr ⟨by simp, Or.inl ?_, ?_⟩
      · show w.length = (joinWords [w]).length
        rfl
      · intro hlen
        simp at hlen

theorem wrapFold_inv (m : Nat) (ws : List (List Char)) :
    ∀ st : WrapState,
      (∀ g ∈ st.lines, g ≠ [] ∧ (2 ≤ g.length → (joinWords g).length ≤ m)) →
      (st.current = [] ∧ st.curLen = 0 ∨
        st.current ≠ [] ∧
        (st.curLen = (joinWords st.current).length ∨
         st.curLen = (joinWords st.current).length + 1) ∧
        (2 ≤ st.current.length → (joinWords st.current).length ≤ m)) →
      (∀ g ∈ (ws.foldl (wrapStep m) st).lines,
          g ≠ [] ∧ (2 ≤ g.length → (joinWords g).length ≤ m)) ∧
      ((ws.foldl (wrapStep m) st).current = [] ∧ (ws.foldl (wrapStep m) st).curLen = 0 ∨
        (ws.foldl (wrapStep m) st).current ≠ [] ∧
        ((ws.foldl (wrapStep m) st).curLen
            = (joinWords (ws.foldl (wrapStep m) st).current).length ∨
         (ws.foldl (wrapStep m) st).curLen
            = (joinWords (ws.foldl (wrapStep m) st).current).length + 1) ∧
        (2 ≤ (ws.foldl (wrapStep m) st).current.length →
          (joinWords (ws.foldl (wrapStep m) st).current).length ≤ m)) := by
  induction ws with
  | nil => intro st hl hcur; exact ⟨hl, hcur⟩
  | cons w rest ih =>
    intro st hl hcur
    rw [List.foldl_cons]
    have hstep := wrapStep_inv m st w hl hcur
    exact ih (wrapStep m st w) hstep.1 hstep.2

theorem wrapGroups_spec (ws : List (List Char)) (m : Nat) :
    (wrapGroups ws m).flatten = ws
    ∧ (∀ g ∈ wrapGroups ws m, g ≠ [] ∧ (2 ≤ g.length → (joinWords g).length ≤ m)) := by
  have hflat := wrapFold_flatten m ws ⟨[], [], 0⟩
  have hinv := wrapFold_inv m ws ⟨[], [], 0⟩ (by simp) (Or.inl ⟨rfl, rfl⟩)
  simp only [List.flatten_nil, List.nil_append] at hflat
  simp only [wrapGroups]
  by_cases hcur : (ws.foldl (wrapStep m) ⟨[], [], 0⟩).current = []
  · rw [if_pos hcur]
    rw [hcur, List.append_nil] at hflat
    exact ⟨hflat, hinv.1⟩
  · rw [if_neg hcur]
    constructor
    · rw [List.flatten_append]
      simpa using hflat
    · intro g hg
      rcases List.mem_append.mp hg with hg | hg
      · exact hinv.1 g hg
      · rcases List.mem_singleton.mp hg with rfl
        rcases hinv.2 with ⟨hemp, _⟩ | ⟨hne, _, hbound⟩
        · exact absurd hemp hcur
        · exact ⟨hne, hbound⟩

/-- C10: for every text and every max_chars, the words of the wrapped lines,
concatenated in order, are exactly the whitespace-split words of the input;
every returned line is non-empty; and a line longer than max_chars consists
of a single word (the line is its own single whitespace-split word). -/
theorem wrap_text_spec (t : String) (m : Nat) :
    ((wrap_text t m).flatMap (fun l => pySplitWs l.data)) = pySplitWs t.data
    ∧ (∀ l ∈ wrap_text t m, l ≠ "")
    ∧ (∀ l ∈ wrap_text t m, m < l.length → pySplitWs l.data = [l.data]) := by
  have hspec := wrapGroups_spec (pySplitWs t.data) m
  have hwords := splitWsAcc_mem t.data [] (by simp)
  have hgw : ∀ g ∈ wrapGroups (pySplitWs t.data) m,
      ∀ w ∈ g, w ≠ [] ∧ ∀ c ∈ w, c.isWhitespace = false := by
    intro g hg w hw
    have hmem : w ∈ (wrapGroups (pySplitWs t.data) m).flatten :=
      List.mem_flatten.mpr ⟨g, hg, hw⟩
    rw [hspec.1] at hmem
    exact hwords w hmem
  refine ⟨?_, ?_, ?_⟩
  · unfold wrap_text
    rw [List.flatMap_map]
    have hcongr : ∀ g ∈ wrapGroups (pySplitWs t.data) m,
        pySplitWs (String.mk (joinWords g)).data = id g := by
      intro g hg
      show pySplitWs (joinWords g) = g
      exact pySplitWs_joinWords g (fun w hw => (hgw g hg w hw).1)
        (fun w hw => (hgw g hg w hw).2)
    calc (wrapGroups (pySplitWs t.data) m).flatMap
          (fun g => pySplitWs (String.mk (joinWords g)).data)
        = (wrapGroups (pySplitWs t.data) m).flatMap id := by
          rw [List.flatMap_def, List.flatMap_def, List.map_congr_left hcongr]
    _ = (wrapGroups (pySplitWs t.data) m).flatten := by
          rw [List.flatMap_def, List.map_id]
    _ = pySplitWs t.data := hspec.1
  · intro l hl
    unfold wrap_text at hl
    rcases List.mem_map.mp hl with ⟨g, hg, rfl⟩
    have hjne : joinWords g ≠ [] :=
      joinWords_ne_nil g (hspec.2 g hg).1 (fun w hw => (hgw g hg w hw).1)
    intro he
    exact hjne (congrArg String.data he)
  · intro l hl hlen
    unfold wrap_text at hl
    rcases List.mem_map.mp hl with ⟨g, hg, rfl⟩
    have hlen' : m < (joinWords g).length := hlen
    have hsingle : g.length ≤ 1 := by
      by_contra hcon
      have := (hspec.2 g hg).2 (by omega)
      omega
    have hgne := (hspec.2 g hg).1
    match g, hgne, hsingle with
    | [w], _, _ =>
      have hjw : joinWords [w] = w := rfl
      show pySplitWs (String.mk (joinWords [w])).data = [(String.mk (joinWords [w])).data]
      rw [hjw]
      show pySplitWs w = [w]
      have := pySplitWs_joinWords [w] (fun x hx => (hgw [w] hg x hx).1)
        (fun x hx => (hgw [w] hg x hx).2)
      rw [hjw] at this
      exact this

/-- Witness for `wrap_text_spec`: a concrete wrap preserves the word
sequence, and a 15-character word against `max_chars = 5` becomes a
single-word over-long line. -/
theorem wrap_text_spec_witness :
    ((wrap_text "The quick brown fox" 10).flatMap (fun l => pySplitWs l.data))
      = pySplitWs "The quick brown fox".data
    ∧ ("Extraordinarily" : String) ≠ ""
    ∧ pySplitWs ("Extraordinarily" : String).data = [("Extraordinarily" : String).data] :=
  ⟨(wrap_text_spec "The quick brown fox" 10).1,
   (wrap_text_spec "Extraordinarily long" 5).2.1 "Extraordinarily" (by decide),
   (wrap_text_spec "Extraordinarily long" 5).2.2 "Extraordinarily" (by decide) (by decide)⟩

/-! ## C2: per-segment renderer trim/loop/scale behaviour -/

theorem runChain_append (c : TClip) (a b : List VFilter) :
    runChain c (a ++ b) = runChain (runChain c a) b :=
  List.foldl_append _ _ _ _

theorem runChain_spatial (fs : List VFilter)
    (h : ∀ f ∈ fs, ∀ c' : TClip, applyVFilter c' f = c') :
    ∀ c : TClip, runChain c fs = c := by
  induction fs with
  | nil => intro c; rfl
  | cons f rest ih =>
    intro c
    show List.foldl applyVFilter c (f :: rest) = c
    rw [List.foldl_cons, h f (List.mem_cons_self _ _) c]
    exact ih (fun g hg c' => h g (List.mem_cons_of_mem _ hg) c') c

theorem longformTextFilter_spatial (noText : Bool) (s : String) :
    ∀ f ∈ longformTextFilter noText s, ∀ c : TClip, applyVFilter c f = c := by
  intro f hf c
  unfold longformTextFilter at hf
  by_cases hn : noText
  · rw [if_pos hn] at hf
    rcases List.mem_singleton.mp hf with rfl
    rfl
  · rw [if_neg hn] at hf
    simp only at hf
    set fl := (wrap_text s 70).flatMap
      (fun ln => [VFilter.drawtext ln "black", VFilter.drawtext ln (get_team_color s)]) with hfl
    by_cases he : fl.isEmpty
    · rw [if_pos he] at hf
      rcases List.mem_singleton.mp hf with rfl
      rfl
    · rw [if_neg he] at hf
      rw [hfl] at hf
      rcases List.mem_flatMap.mp hf with ⟨ln, _, hf2⟩
      rcases List.mem_cons.mp hf2 with rfl | hf3
      · rfl
      · rcases List.mem_singleton.mp hf3 with rfl
        rfl

theorem shortTextFilter_spatial (s : String) :
    ∀ f ∈ shortTextFilter s, ∀ c : TClip, applyVFilter c f = c := by
  intro f hf c
  unfold shortTextFilter at hf
  simp only at hf
  set fl := (wrap_text s 25).flatMap
    (fun ln => [VFilter.drawtext ln "black", VFilter.drawtext ln (get_team_color s)]) with hfl
  by_cases he : fl.isEmpty
  · rw [if_pos he] at hf
    rcases List.mem_singleton.mp hf with rfl
    rfl
  · rw [if_neg he] at hf
    rw [hfl] at hf
    rcases List.mem_flatMap.mp hf with ⟨ln, _, hf2⟩
    rcases List.mem_cons.mp hf2 with rfl | hf3
    · rfl
    · rcases List.mem_singleton.mp hf3 with rfl
      rfl

theorem shortTextFilter_no_loop (s : String) :
    ∀ f ∈ shortTextFilter s, isLoopFilter f = false := by
  intro f hf
  unfold shortTextFilter at hf
  simp only at hf
  set fl := (wrap_text s 25).flatMap
    (fun ln => [VFilter.drawtext ln "black", VFilter.drawtext ln (get_team_color s)]) with hfl
  by_cases he : fl.isEmpty
  · rw [if_pos he] at hf
    rcases List.mem_singleton.mp hf with rfl
    rfl
  · rw [if_neg he] at hf
    rw [hfl] at hf
    rcases List.mem_flatMap.mp hf with ⟨ln, _, hf2⟩
    rcases List.mem_cons.mp hf2 with rfl | hf3
    · rfl
    · rcases List.mem_singleton.mp hf3 with rfl
      rfl

theorem short_segment_filter_no_loop (st ad : ℚ) (s : String) :
    ∀ f ∈ (short_segment_filter st ad s).allFilters, isLoopFilter f = false := by
  intro f hf
  unfold ShortFilterGraph.allFilters short_segment_filter at hf
  rcases List.mem_append.mp hf with hf1 | hf4
  rcases List.mem_append.mp hf1 with hf1 | hf3
  rcases List.mem_append.mp hf1 with hf1 | hf2
  · rcases List.mem_cons.mp hf1 with rfl | hf1
    · rfl
    · rcases List.mem_singleton.mp hf1 with rfl
      rfl
  · rcases List.mem_cons.mp hf2 with rfl | hf2
    · rfl
    rcases List.mem_cons.mp hf2 with rfl | hf2
    · rfl
    · rcases List.mem_singleton.mp hf2 with rfl
      rfl
  · rcases List.mem_singleton.mp hf3 with rfl
    rfl
  · rcases List.mem_cons.mp hf4 with rfl | hf5
    · rfl
    · exact shortTextFilter_no_loop s f hf5

/-- C2 (amended): the long-form renderer trims the footage at the segment's
offset for exactly the audio duration, first looping it when the footage
available after the offset (assumed at least one second, matching the
`max(available_duration, 1)` loop count) is shorter than the audio, and
scales/pads to the target frame; the short-form renderer trims at the offset
for at most the audio duration with no loop stage anywhere in its graph
(yielding a shorter clip when the available footage is shorter than the
audio) and scales the footage over a blurred cover background of the target
frame. -/
theorem create_segment_video_filter_spec (width height : Nat) (noText : Bool)
    (segText : String) (st ad fd : ℚ) (had : 0 ≤ ad) :
    (ad ≤ fd - st →
      longform_segment_filter width height st ad fd noText segText
        = [VFilter.trimStartDur st ad, VFilter.setpts,
           VFilter.scaleDecrease width height, VFilter.padCenter width height] ++
          longformTextFilter noText segText
      ∧ (runChain (sourceClip fd)
          (longform_segment_filter width height st ad fd noText segText)).len = ad
      ∧ ∀ t, (runChain (sourceClip fd)
          (longform_segment_filter width height st ad fd noText segText)).src t = st + t)
    ∧ (fd - st < ad → 1 ≤ fd - st →
      longform_segment_filter width height st ad fd noText segText
        = [VFilter.trimStart st, VFilter.setpts,
           VFilter.loopFilter (pyInt (ad / max (fd - st) 1) + 2) 9999,
           VFilter.trimDur ad, VFilter.setpts,
           VFilter.scaleDecrease width height, VFilter.padCenter width height] ++
          longformTextFilter noText segText
      ∧ (runChain (sourceClip fd)
          (longform_segment_filter width height st ad fd noText segText)).len = ad
      ∧ ∀ t, (runChain (sourceClip fd)
          (longform_segment_filter width height st ad fd noText segText)).src t
            = st + qmod t (fd - st))
    ∧ ((short_segment_filter st ad segText).pre
          = [VFilter.trimStartDur st ad, VFilter.setpts]
      ∧ (∀ f ∈ (short_segment_filter st ad segText).allFilters, isLoopFilter f = false)
      ∧ (short_segment_filter st ad segText).fg
          = [VFilter.scaleDecrease OUTPUT_WIDTH OUTPUT_HEIGHT]
      ∧ (short_segment_filter st ad segText).bg
          = [VFilter.scaleIncrease OUTPUT_WIDTH OUTPUT_HEIGHT,
             VFilter.cropCenter OUTPUT_WIDTH OUTPUT_HEIGHT, VFilter.boxblur 20 5]
      ∧ (0 ≤ fd - st →
          (runChain (sourceClip fd) (short_segment_filter st ad segText).pre).len
            = min ad (fd - st))) := by
  refine ⟨?_, ?_, rfl, ?_, rfl, rfl, ?_⟩
  · intro hcover
    have hchain : longform_segment_filter width height st ad fd noText segText
        = [VFilter.trimStartDur st ad, VFilter.setpts,
           VFilter.scaleDecrease width height, VFilter.padCenter width height] ++
          longformTextFilter noText segText := by
      unfold longform_segment_filter
      rw [if_pos hcover]
    refine ⟨hchain, ?_, ?_⟩
    · rw [hchain, runChain_append,
        runChain_spatial _ (longformTextFilter_spatial noText segText)]
      show (List.foldl applyVFilter (sourceClip fd) _).len = ad
      simp only [List.foldl_cons, List.foldl_nil, applyVFilter]
      show max 0 (min ad (fd - st)) = ad
      rw [min_eq_left hcover, max_eq_right had]
    · intro t
      rw [hchain, runChain_append,
        runChain_spatial _ (longformTextFilter_spatial noText segText)]
      show (List.foldl applyVFilter (sourceClip fd) _).src t = st + t
      simp only [List.foldl_cons, List.foldl_nil, applyVFilter]
      rfl
  · intro hshort hone
    have hmax : max (fd - st) 1 = fd - st := max_eq_left hone
    have hne : ¬ ad ≤ fd - st := not_le.mpr hshort
    have hchain : longform_segment_filter width height st ad fd noText segText
        = [VFilter.trimStart st, VFilter.setpts,
           VFilter.loopFilter (pyInt (ad / max (fd - st) 1) + 2) 9999,
           VFilter.trimDur ad, VFilter.setpts,
           VFilter.scaleDecrease width height, VFilter.padCenter width height] ++
          longformTextFilter noText segText := by
      unfold longform_segment_filter
      rw [if_neg hne]
    have hv : (0 : ℚ) < fd - st := lt_of_lt_of_le zero_lt_one hone
    have hn0 : 0 ≤ pyInt (ad / max (fd - st) 1) + 2 := by
      rw [hmax]
      unfold pyInt
      rw [if_neg (not_lt.mpr (div_nonneg had (le_of_lt hv)))]
      have := Int.floor_nonneg.mpr (div_nonneg had (le_of_lt hv))
      omega
    have hmaxtrim : max 0 (fd - st) = fd - st := max_eq_right (le_of_lt hv)
    have hcover : ad ≤ ((pyInt (ad / max (fd - st) 1) + 2 : ℤ) + 1) * (fd - st) := by
      rw [hmax]
      unfold pyInt
      rw [if_neg (not_lt.mpr (div_nonneg had (le_of_lt hv)))]
      have hfl : ad / (fd - st) < (Int.floor (ad / (fd - st)) : ℚ) + 1 :=
        Int.lt_floor_add_one _
      have hkey : ad / (fd - st) < ((Int.floor (ad / (fd - st)) + 2 : ℤ) + 1 : ℚ) := by
        push_cast
        linarith
      have := (div_lt_iff₀ hv).mp hkey
      push_cast at this ⊢
      linarith
    refine ⟨hchain, ?_, ?_⟩
    · rw [hchain, runChain_append,
        runChain_spatial _ (longformTextFilter_spatial noText segText)]
      show (List.foldl applyVFilter (sourceClip fd) _).len = ad
      simp only [List.foldl_cons, List.foldl_nil, applyVFilter, sourceClip]
      rw [hmaxtrim]
      rw [if_pos ⟨hv, hn0⟩]
      show max 0 (min ad (((pyInt (ad / max (fd - st) 1) + 2 : ℤ) + 1 : ℚ) * (fd - st))) = ad
      rw [min_eq_left (by exact_mod_cast hcover), max_eq_right had]
    · intro t
      rw [hchain, runChain_append,
        runChain_spatial _ (longformTextFilter_spatial noText segText)]
      show (List.foldl applyVFilter (sourceClip fd) _).src t = st + qmod t (fd - st)
      simp only [List.foldl_cons, List.foldl_nil, applyVFilter, sourceClip]
      rw [hmaxtrim]
      rw [if_pos ⟨hv, hn0⟩]

  · exact short_segment_filter_no_loop st ad segText
  · intro hge
    show (List.foldl applyVFilter (sourceClip fd) _).len = min ad (fd - st)
    simp only [short_segment_filter, List.foldl_cons, List.foldl_nil, applyVFilter]
    show max 0 (min ad (fd - st)) = min ad (fd - st)
    exact max_eq_right (le_min had hge)

/-- Counterexample to C2 as stated: with 5 s of footage, offset 0 and 10 s
of audio, the short-form renderer's graph contains no loop stage and its
trimmed clip lasts 5 s — not "exactly the audio's duration"; and with 0.5 s
of available footage and 10 s of audio, the long-form loop count
(`int(10 / max(0.5, 1)) + 2 = 12`) yields a 6.5 s clip, also short of the
audio. -/
theorem create_segment_video_loop_cex :
    (∀ f ∈ (short_segment_filter 0 10 "x").allFilters, isLoopFilter f = false)
    ∧ (runChain (sourceClip 5) (short_segment_filter 0 10 "x").pre).len = 5
    ∧ ((5 : ℚ) < 10)
    ∧ (runChain (sourceClip (1/2))
        (longform_segment_filter 1920 1080 0 10 (1/2) true "x")).len = 13 / 2
    ∧ ((13 : ℚ) / 2 ≠ 10) := by
  refine ⟨short_segment_filter_no_loop 0 10 "x", ?_, by norm_num, ?_, by norm_num⟩
  · show (List.foldl applyVFilter (sourceClip 5) _).len = 5
    simp only [short_segment_filter, List.foldl_cons, List.foldl_nil, applyVFilter, sourceClip]
    norm_num
  · have hmax : max ((1 : ℚ) / 2 - 0) 1 = 1 := by norm_num
    have hpc : pyInt (10 / max ((1 : ℚ) / 2 - 0) 1) + 2 = 12 := by
      rw [hmax]
      unfold pyInt
      rw [if_neg (by norm_num)]
      norm_num
    have hchain : longform_segment_filter 1920 1080 0 10 (1/2) true "x"
        = [VFilter.trimStart 0, VFilter.setpts, VFilter.loopFilter 12 9999,
           VFilter.trimDur 10, VFilter.setpts,
           VFilter.scaleDecrease 1920 1080, VFilter.padCenter 1920 1080] ++
          longformTextFilter true "x" := by
      unfold longform_segment_filter
      rw [if_neg (by norm_num)]
      rw [hpc]
    rw [hchain, runChain_append, runChain_spatial _ (longformTextFilter_spatial true "x")]
    show (List.foldl applyVFilter (sourceClip (1/2)) _).len = 13 / 2
    simp only [List.foldl_cons, List.foldl_nil, applyVFilter, sourceClip]
    rw [if_pos (by constructor <;> norm_num)]
    push_cast
    norm_num

/-- Witness for `create_segment_video_filter_spec`: concrete inputs for the
trim branch, the loop branch, and the short-form trim. -/
theorem create_segment_video_filter_witness :
    (runChain (sourceClip 30)
      (longform_segment_filter 3840 2160 2 10 30 false "Verstappen wins")).len = 10
    ∧ (runChain (sourceClip 5)
        (longform_segment_filter 1920 1080 0 12 5 true "x")).len = 12
    ∧ (runChain (sourceClip 5) (short_segment_filter 0 12 "x").pre).len = min 12 (5 - 0) :=
  ⟨((create_segment_video_filter_spec 3840 2160 false "Verstappen wins" 2 10 30
      (by norm_num)).1 (by norm_num)).2.1,
   ((create_segment_video_filter_spec 1920 1080 true "x" 0 12 5
      (by norm_num)).2.1 (by norm_num) (by norm_num)).2.1,
   (create_segment_video_filter_spec 1920 1080 true "x" 0 12 5
      (by norm_num)).2.2.2.2.2.2 (by norm_num)⟩

/-! ## C3: re-running stages with all target files present -/

/-- Counterexample to C3 as stated: with every target file present, the
preview extractor still probes the footage and runs one `ffmpeg` frame
extraction per sample time (it has no cache check at all and reports no
item as cached), and the audio stage's cached path still invokes `ffprobe`
on the cached file — so "zero external tool or API calls" fails. -/
theorem stage_cache_cex :
    (extract_frames (fun _ => true) (fun _ => 20) "v.mp4" "previews" "seg00" 10).1
      = [ExtCall.ffprobeCall "v.mp4",
         ExtCall.ffmpegFrame 0 "previews/seg00_t000.jpg",
         ExtCall.ffmpegFrame 10 "previews/seg00_t010.jpg"]
    ∧ (extract_frames (fun _ => true) (fun _ => 20) "v.mp4" "previews" "seg00" 10).1 ≠ []
    ∧ (process_segment (fun _ => true) (fun _ => 7) true "e" 0 "txt" "a.mp3").1
      = [ExtCall.ffprobeCall "a.mp3"] := by
  have h20 : (pyInt ((20 : ℚ))).toNat = 20 := by
    unfold pyInt
    rw [if_neg (by norm_num)]
    rw [show Int.floor ((20 : ℚ)) = 20 by norm_num]
    rfl
  have hcalls : (extract_frames (fun _ => true) (fun _ => 20) "v.mp4" "previews" "seg00" 10).1
      = [ExtCall.ffprobeCall "v.mp4",
         ExtCall.ffmpegFrame 0 "previews/seg00_t000.jpg",
         ExtCall.ffmpegFrame 10 "previews/seg00_t010.jpg"] := by
    simp only [extract_frames, h20]
    decide
  exact ⟨hcalls, by rw [hcalls]; simp, rfl⟩

/-- C3 (amended): when its target file already exists, the audio stage's
worker performs exactly one `ffprobe` duration probe (no TTS API request)
and reports the item cached; the footage stage's worker performs no external
call at all and reports the item cached; the preview extractor, by contrast,
issues the same probe-and-extract calls regardless of which target frame
files exist — it re-extracts unconditionally and reports nothing cached. -/
theorem stage_cache_spec (fs fs' : String → Bool) (probedDur : String → ℚ)
    (ttsOk : Bool) (ttsErr : String) (idx : Nat) (segText audioPath : String)
    (searchResults : String → List (String × String)) (dlOk : String → Bool)
    (query footageDir footageFile : String)
    (videoPath outputDir nm : String) (interval : Nat) :
    (fs audioPath = true →
      process_segment fs probedDur ttsOk ttsErr idx segText audioPath
        = ([ExtCall.ffprobeCall audioPath],
           ⟨idx, true, probedDur audioPath, some "cached"⟩))
    ∧ (fs (footageDir ++ "/" ++ footageFile) = true →
      download_segment fs searchResults dlOk idx query footageDir footageFile
        = ([], ⟨idx, true, some "cached", none⟩))
    ∧ (extract_frames fs probedDur videoPath outputDir nm interval).1
        = (extract_frames fs' probedDur videoPath outputDir nm interval).1 := by
  refine ⟨?_, ?_, rfl⟩
  · intro hex
    unfold process_segment
    rw [if_pos hex]
  · intro hex
    unfold download_segment
    simp only
    rw [if_pos hex]

/-- Witness for `stage_cache_spec` with all-files-present oracles. -/
theorem stage_cache_spec_witness :
    process_segment (fun _ => true) (fun _ => 7) true "e" 0 "txt" "a.mp3"
      = ([ExtCall.ffprobeCall "a.mp3"], ⟨0, true, 7, some "cached"⟩)
    ∧ download_segment (fun _ => true) (fun _ => []) (fun _ => true) 1 "q"
        "footage" "segment_01.mp4"
      = ([], ⟨1, true, some "cached", none⟩) :=
  ⟨(stage_cache_spec (fun _ => true) (fun _ => true) (fun _ => 7) true "e" 0 "txt"
      "a.mp3" (fun _ => []) (fun _ => true) "q" "footage" "segment_01.mp4"
      "v" "o" "n" 10).1 rfl,
   (stage_cache_spec (fun _ => true) (fun _ => true) (fun _ => 7) true "e" 1 "txt"
      "a.mp3" (fun _ => []) (fun _ => true) "q" "footage" "segment_01.mp4"
      "v" "o" "n" 10).2.1 rfl⟩

/-! ## C4: missing footage handling in the short-form assembler -/

theorem videoPathShort_inj (tempDir : String) (i j : Nat)
    (h : videoPathShort tempDir i = videoPathShort tempDir j) : i = j := by
  have h2 : segmentVideoPath tempDir.data i = segmentVideoPath tempDir.data j :=
    congrArg String.data h
  have h3 := clipSortKey_segmentVideoPath tempDir.data i
  rw [h2, clipSortKey_segmentVideoPath] at h3
  omega

theorem shortSegmentLoop_videos (fs rendered : String → Bool)
    (audioDir footageDir tempDir : String) (l : List (Nat × ShortSegment)) :
    (shortSegmentLoop fs rendered audioDir footageDir tempDir l).1
      = (l.filter (fun p => (create_segment_video_calls fs rendered p.2
            (audioPathShort audioDir p.1) footageDir (videoPathShort tempDir p.1)).2.1)).map
        (fun p => videoPathShort tempDir p.1) := by
  induction l with
  | nil => rfl
  | cons p rest ih =>
    match p with
    | (i, seg) =>
      rw [shortSegmentLoop]
      cases hr : (create_segment_video_calls fs rendered seg (audioPathShort audioDir i)
          footageDir (videoPathShort tempDir i)).2 with
      | mk b e =>
        cases b
        · simp [List.filter_cons, hr, ih]
        · simp [List.filter_cons, hr, ih]

theorem shortSegmentLoop_failures (fs rendered : String → Bool)
    (audioDir footageDir tempDir : String) (l : List (Nat × ShortSegment)) :
    (shortSegmentLoop fs rendered audioDir footageDir tempDir l).2
      = (l.filter (fun p => !(create_segment_video_calls fs rendered p.2
            (audioPathShort audioDir p.1) footageDir (videoPathShort tempDir p.1)).2.1)).map
        (fun p => (p.1, ((create_segment_video_calls fs rendered p.2
            (audioPathShort audioDir p.1) footageDir (videoPathShort tempDir p.1)).2.2).getD "")) := by
  induction l with
  | nil => rfl
  | cons p rest ih =>
    match p with
    | (i, seg) =>
      rw [shortSegmentLoop]
      cases hr : (create_segment_video_calls fs rendered seg (audioPathShort audioDir i)
          footageDir (videoPathShort tempDir i)).2 with
      | mk b e =>
        cases b
        · simp [List.filter_cons, hr, ih]
        · simp [List.filter_cons, hr, ih]

/-- C4: if a segment's footage file does not exist, the short-form renderer
returns failure with the `Missing footage` diagnostic and performs no
external call, the assembler's clip list is exactly the successful segments'
clips in manifest order (excluding the failed segment, whose failure is
reported), and the stage aborts iff no segment succeeded. -/
theorem missing_footage_spec (fs rendered : String → Bool)
    (segs : List ShortSegment) (audioDir footageDir tempDir : String)
    (i : Nat) (seg : ShortSegment) (hseg : segs.get? i = some seg)
    (hmiss : fs (footageDir ++ "/" ++ seg.footage) = false) :
    create_segment_video_calls fs rendered seg (audioPathShort audioDir i)
        footageDir (videoPathShort tempDir i)
      = ([], (false, some ("Missing footage: " ++ seg.footage)))
    ∧ (short_main_segments fs rendered segs audioDir footageDir tempDir).1
        = (segs.enum.filter (fun p => (create_segment_video_calls fs rendered p.2
            (audioPathShort audioDir p.1) footageDir (videoPathShort tempDir p.1)).2.1)).map
          (fun p => videoPathShort tempDir p.1)
    ∧ videoPathShort tempDir i
        ∉ (short_main_segments fs rendered segs audioDir footageDir tempDir).1
    ∧ (i, "Missing footage: " ++ seg.footage)
        ∈ (short_main_segments fs rendered segs audioDir footageDir tempDir).2.1
    ∧ ((short_main_segments fs rendered segs audioDir footageDir tempDir).2.2 = true ↔
        ∀ p ∈ segs.enum, (create_segment_video_calls fs rendered p.2
          (audioPathShort audioDir p.1) footageDir (videoPathShort tempDir p.1)).2.1 = false) := by
  have hcreate : create_segment_video_calls fs rendered seg (audioPathShort audioDir i)
      footageDir (videoPathShort tempDir i)
      = ([], (false, some ("Missing footage: " ++ seg.footage))) := by
    unfold create_segment_video_calls
    rw [if_pos hmiss]
  have hmem_enum : (i, seg) ∈ segs.enum := by
    apply List.mk_mem_enum_iff_getElem?.mpr
    rw [← List.get?_eq_getElem?]
    exact hseg
  have hvideos := shortSegmentLoop_videos fs rendered audioDir footageDir tempDir segs.enum
  have hfails := shortSegmentLoop_failures fs rendered audioDir footageDir tempDir segs.enum
  refine ⟨hcreate, hvideos, ?_, ?_, ?_⟩
  · intro hmem
    simp only [short_main_segments] at hmem
    rw [hvideos] at hmem
    rcases List.mem_map.mp hmem with ⟨p, hp, hpath⟩
    obtain ⟨pi, pseg⟩ := p
    have hpi : pi = i := videoPathShort_inj tempDir pi i hpath
    rcases List.mem_filter.mp hp with ⟨hpenum, hppred⟩
    have h2 := List.mem_enum hpenum
    have h3 : segs.get? pi = some pseg := by
      rw [List.get?_eq_getElem?, List.getElem?_eq_getElem h2.1, ← h2.2]
    subst hpi
    rw [hseg] at h3
    have hpseg : pseg = seg := (Option.some_inj.mp h3).symm
    subst hpseg
    simp [hcreate] at hppred
  · show (i, "Missing footage: " ++ seg.footage)
        ∈ (shortSegmentLoop fs rendered audioDir footageDir tempDir segs.enum).2
    rw [hfails]
    apply List.mem_map.mpr
    refine ⟨(i, seg), ?_, ?_⟩
    · apply List.mem_filter.mpr
      refine ⟨hmem_enum, ?_⟩
      simp [hcreate]
    · simp [hcreate]
  · show ((shortSegmentLoop fs rendered audioDir footageDir tempDir segs.enum).1).isEmpty = true ↔ _
    rw [hvideos]
    rw [List.isEmpty_iff, List.map_eq_nil_iff, List.filter_eq_nil_iff]
    constructor
    · intro hall p hp
      have := hall p hp
      simpa using this
    · intro hall p hp
      simp [hall p hp]

/-- Witness for `missing_footage_spec`: two segments, the second without its
footage file; it fails with the diagnostic and is reported while the stage
continues. -/
theorem missing_footage_witness :
    create_segment_video_calls (fun p => p == "footage/clip0.mp4") (fun _ => true)
        ⟨"t1", "c1", "clip1.mp4", 0⟩ (audioPathShort "audio" 1) "footage"
        (videoPathShort "temp" 1)
      = ([], (false, some ("Missing footage: " ++ "clip1.mp4")))
    ∧ (1, "Missing footage: " ++ "clip1.mp4")
        ∈ (short_main_segments (fun p => p == "footage/clip0.mp4") (fun _ => true)
            [⟨"t0", "c0", "clip0.mp4", 0⟩, ⟨"t1", "c1", "clip1.mp4", 0⟩]
            "audio" "footage" "temp").2.1 := by
  have h := missing_footage_spec (fun p => p == "footage/clip0.mp4") (fun _ => true)
    [⟨"t0", "c0", "clip0.mp4", 0⟩, ⟨"t1", "c1", "clip1.mp4", 0⟩]
    "audio" "footage" "temp" 1 ⟨"t1", "c1", "clip1.mp4", 0⟩ rfl (by decide)
  exact ⟨h.1, h.2.2.2.1⟩

/-! ## C5: footage download-all manifest updates -/

theorem footageApplyResult_length (fs : String → Bool)
    (searchResults : String → List (String × String)) (dlOk : String → Bool)
    (footageDir : String) (segs ms : List Segment) (i : Nat) :
    (footageApplyResult fs searchResults dlOk footageDir segs ms i).length = ms.length := by
  unfold footageApplyResult
  cases segs.get? i with
  | none => rfl
  | some seg =>
    by_cases h1 : (footageTask fs searchResults dlOk footageDir segs i).2.title = some "cached"
    · simp [h1]
    · by_cases h2 : (footageTask fs searchResults dlOk footageDir segs i).2.success
      · simp [h1, h2]
      · simp [h1, h2]

theorem footageApplyResult_not_upd (fs : String → Bool)
    (searchResults : String → List (String × String)) (dlOk : String → Bool)
    (footageDir : String) (segs ms : List Segment) (i : Nat)
    (h : ¬((footageTask fs searchResults dlOk footageDir segs i).2.title ≠ some "cached" ∧
          (footageTask fs searchResults dlOk footageDir segs i).2.success = true)) :
    footageApplyResult fs searchResults dlOk footageDir segs ms i = ms := by
  unfold footageApplyResult
  cases segs.get? i with
  | none => rfl
  | some seg =>
    by_cases h1 : (footageTask fs searchResults dlOk footageDir segs i).2.title = some "cached"
    · simp [h1]
    · by_cases h2 : (footageTask fs searchResults dlOk footageDir segs i).2.success
      · exact absurd ⟨h1, h2⟩ h
      · simp [h1, h2]

theorem footageApplyResult_upd (fs : String → Bool)
    (searchResults : String → List (String × String)) (dlOk : String → Bool)
    (footageDir : String) (segs ms : List Segment) (i : Nat) (seg : Segment)
    (hseg : segs.get? i = some seg)
    (h1 : (footageTask fs searchResults dlOk footageDir segs i).2.title ≠ some "cached")
    (h2 : (footageTask fs searchResults dlOk footageDir segs i).2.success = true) :
    footageApplyResult fs searchResults dlOk footageDir segs ms i
      = ms.set i { seg with footage := some (segmentMp4Name i) } := by
  unfold footageApplyResult
  rw [hseg]
  simp [h1, h2]

theorem footageFold_get? (fs : String → Bool)
    (searchResults : String → List (String × String)) (dlOk : String → Bool)
    (footageDir : String) (segs : List Segment) :
    ∀ (order : List Nat) (ms : List Segment), ms.length = segs.length →
      ∀ j, (order.foldl (footageApplyResult fs searchResults dlOk footageDir segs) ms).get? j
        = if j ∈ order ∧
            (footageTask fs searchResults dlOk footageDir segs j).2.title ≠ some "cached" ∧
            (footageTask fs searchResults dlOk footageDir segs j).2.success = true
          then (segs.get? j).map (fun seg => { seg with footage := some (segmentMp4Name j) })
          else ms.get? j := by
  intro order
  induction order with
  | nil =>
    intro ms hlen j
    simp
  | cons i rest ih =>
    intro ms hlen j
    rw [List.foldl_cons]
    have hlen' : (footageApplyResult fs searchResults dlOk footageDir segs ms i).length
        = segs.length := by
      rw [footageApplyResult_length]
      exact hlen
    rw [ih _ hlen' j]
    by_cases hrest : j ∈ rest ∧
        (footageTask fs searchResults dlOk footageDir segs j).2.title ≠ some "cached" ∧
        (footageTask fs searchResults dlOk footageDir segs j).2.success = true
    · rw [if_pos hrest, if_pos ⟨List.mem_cons_of_mem i hrest.1, hrest.2⟩]
    · rw [if_neg hrest]
      by_cases hupd : (footageTask fs searchResults dlOk footageDir segs i).2.title ≠ some "cached" ∧
          (footageTask fs searchResults dlOk footageDir segs i).2.success = true
      · cases hsegi : segs.get? i with
        | none =>
          exfalso
          unfold footageTask at hupd
          rw [hsegi] at hupd
          simp at hupd
        | some seg =>
          rw [footageApplyResult_upd fs searchResults dlOk footageDir segs ms i seg hsegi
            hupd.1 hupd.2]
          rw [List.get?_eq_getElem?, List.getElem?_set]
          by_cases hij : i = j
          · subst hij
            have hilt : i < ms.length := by
              rw [hlen]
              by_contra hge
              rw [List.get?_eq_getElem?, List.getElem?_eq_none (by omega)] at hsegi
              exact Option.noConfusion hsegi
            rw [if_pos rfl, if_pos hilt,
              if_pos ⟨List.mem_cons_self i rest, hupd⟩, hsegi]
            rfl
          · rw [if_neg hij, if_neg]
            · rw [List.get?_eq_getElem?]
            · intro hcon
              rcases List.mem_cons.mp hcon.1 with rfl | hmem
              · exact hij rfl
              · exact hrest ⟨hmem, hcon.2⟩
      · rw [footageApplyResult_not_upd fs searchResults dlOk footageDir segs ms i hupd]
        rw [if_neg]
        intro hcon
        rcases List.mem_cons.mp hcon.1 with rfl | hmem
        · exact hupd hcon.2
        · exact hrest ⟨hmem, hcon.2⟩

/-- C5 counterexample: the cached-skip sentinel is the literal reported
title `"cached"`, so a genuinely downloaded video whose (truncated) title
is `"cached"` is downloaded — the trace contains the `yt-dlp` download and
the task reports success — yet the manifest `footage` field is left
unset, refuting "every segment whose download succeeds has its manifest
footage field set to segment_<idx>.mp4". -/
theorem footage_manifest_cex :
    FootageMainEvent.callEvt (ExtCall.ytDownload "vid0")
      ∈ (footage_main_all (fun _ => false) (fun _ => [("cached", "vid0")]) (fun _ => true)
          "footage" [⟨"t0", "c0", none, some "q0", 0, [], none⟩] [0]).1 ∧
    (footageTask (fun _ => false) (fun _ => [("cached", "vid0")]) (fun _ => true)
        "footage" [⟨"t0", "c0", none, some "q0", 0, [], none⟩] 0).2.success = true ∧
    ((footage_main_all (fun _ => false) (fun _ => [("cached", "vid0")]) (fun _ => true)
        "footage" [⟨"t0", "c0", none, some "q0", 0, [], none⟩] [0]).2.map Segment.footage)
      = [none] :=
  ⟨by decide, by decide, by decide⟩

/-- C5 (amended): in download-all mode, for any completion order that is a
permutation of the segment indices, a segment's manifest entry is rewritten
to `{ footage := segment_<idx>.mp4 }` (all other fields unchanged) exactly
when its task reports success with a title other than the literal sentinel
`"cached"`; every other entry is returned unchanged; and the manifest is
saved exactly once, as the very last event, after all per-task external
calls. -/
theorem footage_main_all_spec (fs : String → Bool)
    (searchResults : String → List (String × String)) (dlOk : String → Bool)
    (footageDir : String) (segs : List Segment) (order : List Nat)
    (hperm : order.Perm (List.range segs.length)) :
    List.count FootageMainEvent.saveScriptEvt
        (footage_main_all fs searchResults dlOk footageDir segs order).1 = 1 ∧
    (footage_main_all fs searchResults dlOk footageDir segs order).1.getLast?
        = some FootageMainEvent.saveScriptEvt ∧
    ∀ j seg, segs.get? j = some seg →
      (footage_main_all fs searchResults dlOk footageDir segs order).2.get? j
        = some (if (footageTask fs searchResults dlOk footageDir segs j).2.title
                    ≠ some "cached" ∧
                  (footageTask fs searchResults dlOk footageDir segs j).2.success = true
                then { seg with footage := some (segmentMp4Name j) }
                else seg) := by
  refine ⟨?_, ?_, ?_⟩
  · simp only [footage_main_all]
    rw [List.count_append]
    have hnot : FootageMainEvent.saveScriptEvt ∉
        (order.flatMap fun i =>
          ((footageTask fs searchResults dlOk footageDir segs i).1).map
            FootageMainEvent.callEvt) := by
      intro hmem
      rcases List.mem_flatMap.mp hmem with ⟨i, _, hi⟩
      rcases List.mem_map.mp hi with ⟨c, _, hc⟩
      exact FootageMainEvent.noConfusion hc
    rw [List.count_eq_zero.mpr hnot]
    simp
  · simp only [footage_main_all]
    exact List.getLast?_concat _
  · intro j seg hseg
    simp only [footage_main_all]
    have hlt : j < segs.length := by
      by_contra hge
      rw [List.get?_eq_getElem?, List.getElem?_eq_none (by omega)] at hseg
      exact Option.noConfusion hseg
    have hj : j ∈ order := hperm.mem_iff.mpr (List.mem_range.mpr hlt)
    rw [footageFold_get? fs searchResults dlOk footageDir segs order segs rfl j]
    by_cases hP : (footageTask fs searchResults dlOk footageDir segs j).2.title
        ≠ some "cached" ∧
        (footageTask fs searchResults dlOk footageDir segs j).2.success = true
    · rw [if_pos ⟨hj, hP⟩, hseg, if_pos hP]
      rfl
    · rw [if_neg (fun hcon => hP hcon.2), hseg, if_neg hP]

/-- Witness for C5 at the example manifest: completion order `[1, 0]` is a
permutation of the indices, the save event happens exactly once and last,
segment 0 (cached) keeps its footage name, segment 1 gets
`segment_01.mp4` and keeps its text. -/
theorem footage_main_all_spec_witness :
    ([1, 0] : List Nat).Perm (List.range exampleFootageSegs.length) ∧
    List.count FootageMainEvent.saveScriptEvt exampleFootageRun.1 = 1 ∧
    exampleFootageRun.1.getLast? = some FootageMainEvent.saveScriptEvt ∧
    (exampleFootageRun.2.get? 0).map Segment.footage = some (some "segment_00.mp4") ∧
    (exampleFootageRun.2.get? 1).map Segment.footage = some (some "segment_01.mp4") ∧
    (exampleFootageRun.2.get? 1).map Segment.text = some "text one" := by
  have h := footage_main_all_spec exampleFs exampleSearch (fun _ => true) "footage"
    exampleFootageSegs [1, 0] (by decide)
  have h0 := h.2.2 0 ⟨"text zero", "c0", some "segment_00.mp4", some "q0", 0, [], none⟩ rfl
  have h1 := h.2.2 1 ⟨"text one", "c1", none, some "Monaco highlights", 0, [], none⟩ rfl
  rw [if_neg (by decide)] at h0
  rw [if_pos (by decide)] at h1
  refine ⟨by decide, h.1, h.2.1, ?_, ?_, ?_⟩
  · simp only [exampleFootageRun]
    rw [h0]
    decide
  · simp only [exampleFootageRun]
    rw [h1]
    decide
  · simp only [exampleFootageRun]
    rw [h1]
    decide

end F1
